import Mathlib

/-!
Verification of the reconciliation engine of hayward_tennis_courts
(src/hayward_tennis_sync.py and src/delete_all_events.py) against its
natural-language specification.  The Python functions are shallowly
embedded: JSON payloads become an inductive `Json` type with Python
container semantics, fallible code returns `Except PyErr`, dicts become
insertion-ordered association lists, and timezone-aware datetimes become
wall-clock minute counts (Python compares aware datetimes that carry the
same tzinfo by their wall-clock value, and timedelta arithmetic is
wall-clock arithmetic, so this is faithful for the single configured zone).
-/

namespace HaywardTennis

/-- JSON values as decoded by json.loads, used as the payload model for
parse_reservation_data (src/hayward_tennis_sync.py lines 127-195). -/
inductive Json where
  | null : Json
  | bool : Bool → Json
  | num : Int → Json
  | str : String → Json
  | arr : List Json → Json
  | obj : List (String × Json) → Json

/-- Python equality (==) restricted to the comparisons the script performs:
needles of list membership are strings and the booked test compares against
the int 1.  Python treats True == 1 and False == 0 as true; values of
different non-numeric kinds compare unequal.  The script never compares two
containers, so those fall to the catch-all false. -/
def pyEq : Json → Json → Bool
  | .null, .null => true
  | .bool a, .bool b => a == b
  | .bool a, .num n => if a then n == 1 else n == 0
  | .num n, .bool a => if a then n == 1 else n == 0
  | .num a, .num b => a == b
  | .str a, .str b => a == b
  | _, _ => false

/-- Membership of one character list as a contiguous run of another. -/
def containsSub (needle : List Char) : List Char → Bool
  | [] => needle.isEmpty
  | c :: rest => needle.isPrefixOf (c :: rest) || containsSub needle rest

/-- Substring test, modelling the Python expression needle in haystack for
two strings (Python strings are sequences of code points, so character
lists carry the exact semantics). -/
def substrOf (needle hay : String) : Bool :=
  containsSub needle.data hay.data

/-- Greedy left-to-right split on a non-overlapping separator, with fuel for
structural termination; str.split of Python.  The fuel branch is never
taken when the fuel starts at the length of the subject. -/
def splitOnFuel (sep : List Char) : Nat → List Char → List Char → List (List Char)
  | _, [], acc => [acc.reverse]
  | 0, s, acc => [acc.reverse ++ s]
  | fuel + 1, c :: rest, acc =>
    if sep.isPrefixOf (c :: rest) then
      acc.reverse :: splitOnFuel sep fuel ((c :: rest).drop sep.length) []
    else
      splitOnFuel sep fuel rest (c :: acc)

/-- Python str.split(sep) for a non-empty separator. -/
def pySplit (sep s : String) : List String :=
  (splitOnFuel sep.data s.data.length s.data []).map (fun cs => String.mk cs)

/-- Left-to-right non-overlapping replacement with fuel; str.replace of
Python for a non-empty pattern. -/
def replaceFuel (old new : List Char) : Nat → List Char → List Char
  | _, [] => []
  | 0, s => s
  | fuel + 1, c :: rest =>
    if old.isPrefixOf (c :: rest) then
      new ++ replaceFuel old new fuel ((c :: rest).drop old.length)
    else
      c :: replaceFuel old new fuel rest

/-- Python str.replace(old, new) for a non-empty pattern. -/
def pyReplace (s old new : String) : String :=
  String.mk (replaceFuel old.data new.data s.data.length s.data)

/-- Decimal digit value of a character, none on a non-digit. -/
def decDigit (c : Char) : Option Nat :=
  if c.isDigit then some (c.toNat - 48) else none

/-- Accumulating decimal reading of a character list. -/
def digitsToNatAux : List Char → Nat → Option Nat
  | [], acc => some acc
  | c :: cs, acc =>
    match decDigit c with
    | some d => digitsToNatAux cs (10 * acc + d)
    | none => none

/-- Python int(s) on a plain digit string (also the semantics str.toNat
style conversion the date and time parsing below needs): all characters
must be digits and the string non-empty. -/
def digitsToNat? : List Char → Option Nat
  | [] => none
  | c :: cs => digitsToNatAux (c :: cs) 0

/-- Lexicographic order on code-point sequences: exactly the comparison
Python uses for strings (and Lean for String, via a non-reducing
implementation; this executable one is used by the embedding). -/
def charListLe : List Char → List Char → Bool
  | [], _ => true
  | _ :: _, [] => false
  | a :: as, b :: bs =>
    if a == b then charListLe as bs else decide (a.toNat < b.toNat)

/-- Python string comparison a <= b. -/
def labelLe (a b : String) : Prop :=
  charListLe a.data b.data = true

instance : DecidableRel labelLe := fun a b => by
  unfold labelLe; infer_instance

/-- Python truthiness of a decoded JSON value. -/
def pyTruthy : Json → Bool
  | .null => false
  | .bool b => b
  | .num n => n != 0
  | .str s => !s.data.isEmpty
  | .arr xs => !xs.isEmpty
  | .obj fs => !fs.isEmpty

/-- Runtime errors of the embedded parser.  valueError is the ValueError the
source raises (the DataFormatError of the spec); decodeError stands for
json.JSONDecodeError, itself a ValueError subclass raised by json.loads;
typeError, attributeError and keyError model Python exceptions that escape
parse_reservation_data uncaught. -/
inductive PyErr where
  | decodeError : PyErr
  | valueError : String → PyErr
  | typeError : String → PyErr
  | attributeError : String → PyErr
  | keyError : String → PyErr

/-- Python membership test (key in value) for a string key: key lookup on a
dict, element equality on a list, substring test on a string, and a
TypeError on any non-container. -/
def pyContains (needle : String) : Json → Except PyErr Bool
  | .obj fs => .ok (fs.any (fun p => p.1 == needle))
  | .arr xs => .ok (xs.any (fun x => pyEq x (.str needle)))
  | .str s => .ok (substrOf needle s)
  | _ => .error (.typeError "argument is not iterable")

/-- Python subscription value[key] with a string key: dict lookup (KeyError
when absent), TypeError on every other value. -/
def pyIndex (v : Json) (key : String) : Except PyErr Json :=
  match v with
  | .obj fs =>
    match fs.lookup key with
    | some x => .ok x
    | none => .error (.keyError key)
  | _ => .error (.typeError "indices must be integers")

/-- Python dict .get(key) with default None; AttributeError on a value that
is not a dict. -/
def pyGet (v : Json) (key : String) : Except PyErr Json :=
  match v with
  | .obj fs => .ok ((fs.lookup key).getD .null)
  | _ => .error (.attributeError "get")

/-- The expression t[:5] followed by use of the result as a dict key: only a
string survives both steps.  A list label would survive the slice but fail
as an unhashable dict key, so a TypeError results either way; the embedding
raises it at this single point. -/
def pyTimeKey : Json → Except PyErr String
  | .str s => .ok (s.take 5)
  | _ => .error (.typeError "unusable time slot label")

/-- Assignment d[k] = v on an insertion-ordered dict modelled as an
association list: overwrite in place, or append a new key at the end. -/
def assocSet {β : Type} : List (String × β) → String → β → List (String × β)
  | [], k, v => [(k, v)]
  | (k1, v1) :: rest, k, v =>
    if k1 == k then (k, v) :: rest else (k1, v1) :: assocSet rest k v

/-- Per-court slot map: time-of-day label to booked flag. -/
abbrev SlotMap := List (String × Bool)

/-- Per-location court map. -/
abbrev CourtMap := List (String × SlotMap)

/-- Locations of one date. -/
abbrev LocMap := List (String × CourtMap)

/-- Truncated slot key of a label: the first five characters, HH:MM. -/
def slotKey (s : String) : String := s.take 5

/-- Booked flag computed from the detail at one index (source lines
185-190): look the detail up by index, mark booked exactly when its status
equals 1, and default to not booked when the detail list has no entry at
that index. -/
def detailBooked (details : List Json) (idx : Nat) : Except PyErr Bool :=
  if idx < details.length then do
    let status ← pyGet (details.getD idx .null) "status"
    pure (pyEq status (.num 1))
  else
    pure false

/-- The same flag as a total function, meaningful when the accessed detail
is an object (detailBooked is then .ok of this value). -/
def expectedBooked (details : List Json) (idx : Nat) : Bool :=
  if idx < details.length then
    match details.getD idx .null with
    | .obj fs => pyEq ((fs.lookup "status").getD .null) (.num 1)
    | _ => false
  else false

/-- Loop over enumerate(time_slots) (source lines 183-190): truncate the
label to five characters, compute the booked flag of the same index, and
record it under the truncated label. -/
def buildSlotStatus : Nat → List Json → List Json → SlotMap → Except PyErr SlotMap
  | _, [], _, acc => .ok acc
  | idx, t :: ts, details, acc => do
    let key ← pyTimeKey t
    let reserved ← detailBooked details idx
    buildSlotStatus (idx + 1) ts details (assocSet acc key reserved)

/-- One iteration of the resource loop (source lines 168-191), threading the
locations mapping being built under the requested date. -/
def procResource (time_slots : List Json) (res : Json) (locs : LocMap) :
    Except PyErr LocMap := do
  let resource_name ← pyGet res "resource_name"
  if pyTruthy resource_name then
    let marked ← pyContains "Tennis Court" resource_name
    if marked then
      match resource_name with
      | .str name =>
        match pySplit " - " name with
        | [location, court_full] => do
          let court_name := pyReplace court_full "Tennis Court " "Court "
          let locs1 := if (locs.lookup location).isSome then locs
            else assocSet locs location []
          let details ← pyGet res "time_slot_details"
          match details with
          | .arr ds => do
            let slot_status ← buildSlotStatus 0 time_slots ds []
            let courts := (locs1.lookup location).getD []
            .ok (assocSet locs1 location (assocSet courts court_name slot_status))
          | _ => .error (.valueError "Expected time_slot_details to be a list")
        | _ => .ok locs
      | _ => .error (.attributeError "split")
    else
      .ok locs
  else
    .ok locs

/-- The resource loop of parse_reservation_data. -/
def procResources (time_slots : List Json) : List Json → LocMap → Except PyErr LocMap
  | [], locs => .ok locs
  | r :: rs, locs => do
    let locs1 ← procResource time_slots r locs
    procResources time_slots rs locs1

/-- Body of the recognized-format branch (source lines 154-192): validate
the two list fields, then run the resource loop. -/
def parseAvailability (avail : Json) : Except PyErr LocMap := do
  let time_slots ← pyGet avail "time_slots"
  match time_slots with
  | .arr ts => do
    let resources ← pyGet avail "resources"
    match resources with
    | .arr rs => procResources ts rs []
    | _ => .error (.valueError "Expected resources to be a list in availability")
  | _ => .error (.valueError "Expected time_slots to be a list in availability")

/-- The compound condition of source line 154: body in data and
availability in data[body], with Python short-circuit evaluation. -/
def bodyAvailCheck (data : Json) : Except PyErr Bool := do
  let hasBody ← pyContains "body" data
  if hasBody then do
    let b ← pyIndex data "body"
    pyContains "availability" b
  else
    pure false

/-- parse_reservation_data (source lines 127-195).  The input none stands
for bytes that json.loads rejects.  The result mirrors the returned dict: a
single entry keyed by reserve_date, or by the literal string requested_date
when no reference date is supplied.  Messages keep the key names of the
source but drop the surrounding quote characters. -/
def parse_reservation_data (json_data : Option Json) (reserve_date : Option String) :
    Except PyErr (List (String × LocMap)) := do
  match json_data with
  | none => .error .decodeError
  | some data => do
    let cond ← bodyAvailCheck data
    if cond then do
      let b ← pyIndex data "body"
      let avail ← pyIndex b "availability"
      let locs ← parseAvailability avail
      .ok [(reserve_date.getD "requested_date", locs)]
    else
      .error (.valueError "JSON data missing required body or availability keys")

/-- Payload of the recognized shape carrying the given slot-label and
resource lists. -/
def mkPayload (ts rs : List Json) : Json :=
  .obj [("body", .obj [("availability", .obj
    [("time_slots", .arr ts), ("resources", .arr rs)])])]

/-- Parse an HH:MM time-of-day label to minutes since midnight; zero when
the label is not of that shape.  strptime, which would raise instead, is
only applied to well-formed labels under the hypotheses used below. -/
def toMin (t : String) : Nat :=
  match pySplit ":" t with
  | [h, m] => 60 * ((digitsToNat? h.data).getD 0) + ((digitsToNat? m.data).getD 0)
  | _ => 0

/-- Day count of a proleptic Gregorian civil date.  Only differences between
day numbers matter for the claims, so no epoch offset is subtracted. -/
def daysFromCivil (y m d : Nat) : Nat :=
  let y1 := if m ≤ 2 then y - 1 else y
  let era := y1 / 400
  let yoe := y1 % 400
  let mp := if m ≤ 2 then m + 9 else m - 3
  let doy := (153 * mp + 2) / 5 + d - 1
  let doe := yoe * 365 + yoe / 4 - yoe / 100 + doy
  era * 146097 + doe

/-- Day number of an ISO YYYY-MM-DD date string (zero on junk input, which
strptime would reject; see isValidDate). -/
def dayNum (date : String) : Nat :=
  match pySplit "-" date with
  | [y, m, d] =>
    daysFromCivil ((digitsToNat? y.data).getD 0) ((digitsToNat? m.data).getD 0)
      ((digitsToNat? d.data).getD 0)
  | _ => 0

/-- Date strings strptime accepts with format Y-m-d (bounds kept simple). -/
def isValidDate (date : String) : Bool :=
  match pySplit "-" date with
  | [y, m, d] =>
    match digitsToNat? y.data, digitsToNat? m.data, digitsToNat? d.data with
    | some yn, some mn, some dn =>
      decide (1 ≤ yn) && decide (1 ≤ mn) && decide (mn ≤ 12) &&
        decide (1 ≤ dn) && decide (dn ≤ 31)
    | _, _, _ => false
  | _ => false

/-- Wall-clock instant, in minutes, of a date string combined with an HH:MM
label in the configured timezone.  Models datetime.strptime followed by
replace(tzinfo=tz): aware datetimes with identical tzinfo compare by their
wall clock, and timedelta arithmetic is wall-clock arithmetic, so a minute
count is a faithful model of the values the scan compares and extends. -/
def slotInstant (date t : String) : Nat :=
  1440 * dayNum date + toMin t

/-- The single left-to-right scan of consolidate_booked_slots (source lines
228-244): extend the running interval when the next booked slot starts
exactly at its current end, otherwise flush it and open a new one at the
slot; the final running interval is always flushed. -/
def mergeScan (cs ce : Nat) : List Nat → List (Nat × Nat)
  | [] => [(cs, ce)]
  | t :: ts =>
    if t = ce then mergeScan cs (ce + 30) ts
    else (cs, ce) :: mergeScan t (t + 30) ts

/-- Booked labels of one court in dict order (source line 221). -/
def bookedTimes (slots : SlotMap) : List String :=
  (slots.filter (fun p => p.2)).map (fun p => p.1)

/-- Events of one (date, court) pair: sort the booked labels (source line
224; list.sort is a stable comparison sort, rendered as insertion sort),
convert each label to its instant, then run the merge scan. -/
def courtEvents (date : String) (slots : SlotMap) : List (Nat × Nat) :=
  match (List.insertionSort labelLe (bookedTimes slots)).map (slotInstant date) with
  | [] => []
  | t :: ts => mergeScan t (t + 30) ts

/-- Consolidated desired state: location to court to event intervals, each
interval a half-open pair of wall-clock instants (the source stores the
isoformat strings of these instants; isoformat is injective on instants of
one timezone, so the instants themselves are kept). -/
abbrev Consolidated := List (String × List (String × List (Nat × Nat)))

/-- The three dict operations at source lines 245-249: ensure the location
entry, ensure the court entry, extend its event list. -/
def consUpdate (acc : Consolidated) (location court : String)
    (events : List (Nat × Nat)) : Consolidated :=
  let locEntry := (acc.lookup location).getD []
  let courtEntry := (locEntry.lookup court).getD []
  assocSet acc location (assocSet locEntry court (courtEntry ++ events))

/-- consolidate_booked_slots (source lines 197-250): iterate dates, then
locations, then courts, skipping courts with no booked slot. -/
def consolidate_booked_slots (parsed : List (String × LocMap)) : Consolidated :=
  parsed.foldl (fun acc p =>
    p.2.foldl (fun acc q =>
      q.2.foldl (fun acc c =>
        if (bookedTimes c.2).isEmpty then acc
        else consUpdate acc q.1 c.1 (courtEvents p.1 c.2)) acc) acc) []

/-- Two-digit zero-padded rendering of a number below one hundred. -/
def padTwo (n : Nat) : String :=
  if n < 10 then "0" ++ toString n else toString n

/-- Zero-padded HH:MM rendering of a time of day. -/
def renderHM (h m : Nat) : String :=
  padTwo h ++ ":" ++ padTwo m

/-- Label of canonical 30-minute slot number k: the slot starting at minute
30 * k of the day. -/
def renderSlot (k : Fin 48) : String :=
  renderHM ((k : Nat) / 2) (30 * ((k : Nat) % 2))

/-- Canonical slot labels: zero-padded HH:MM values on the half hour, the
label shape of the 30-minute-granularity canonical availability. -/
def isCanonLabel (t : String) : Bool :=
  decide (∃ k : Fin 48, t = renderSlot k)

/-- Well-formedness of one interval sequence: every interval is non-empty
and each one ends strictly before the next begins (hence sorted, pairwise
disjoint, and never sharing a boundary). -/
def intervalsOK (l : List (Nat × Nat)) : Prop :=
  List.Chain' (fun a b => a.2 < b.1) l ∧ ∀ p ∈ l, p.1 < p.2

/-- The property the claim asserts of a per-sub-resource interval sequence:
non-decreasing starts, and pairwise non-overlapping without a shared
boundary. -/
def claimC3Prop (l : List (Nat × Nat)) : Prop :=
  List.Chain' (fun a b => a.1 ≤ b.1) l ∧
    List.Pairwise (fun a b => a.2 < b.1 ∨ b.2 < a.1) l

/-- Canonical availability input: valid ISO dates, distinct dict keys at
every level (an insertion-ordered association list stands for a dict only
when its keys are distinct), and canonical 30-minute slot labels. -/
def CanonicalAvail (parsed : List (String × LocMap)) : Prop :=
  (parsed.map Prod.fst).Nodup ∧
  ∀ dl ∈ parsed, isValidDate dl.1 = true ∧ (dl.2.map Prod.fst).Nodup ∧
    ∀ lc ∈ dl.2, (lc.2.map Prod.fst).Nodup ∧
      ∀ cs ∈ lc.2, (cs.2.map Prod.fst).Nodup ∧
        ∀ sl ∈ cs.2, isCanonLabel sl.1 = true

/-- A DataFormatError of the spec: the ValueError family (json decode
errors included). -/
def isDataFormat {α : Type} : Except PyErr α → Bool
  | .error .decodeError => true
  | .error (.valueError _) => true
  | _ => false

/-- Container value at body and then availability, when the payload nests
objects in the recognized way. -/
def availOf : Option Json → Option Json
  | some (.obj fs) =>
    match fs.lookup "body" with
    | some (.obj bs) => bs.lookup "availability"
    | _ => none
  | _ => none

/-- A resource entry the loop commits to: its name is a string holding the
marker and splitting into exactly two parts; only then is the detail list
demanded to be list-shaped. -/
def resourceCommitted (res : Json) : Bool :=
  match res with
  | .obj fs =>
    match (fs.lookup "resource_name").getD .null with
    | .str name =>
      substrOf "Tennis Court" name && decide ((pySplit " - " name).length = 2)
    | _ => false
  | _ => false

/-- A detail field that is not list-shaped (a missing field counts: its
None placeholder is not a list). -/
def resourceBadDetails (res : Json) : Bool :=
  match res with
  | .obj fs =>
    match (fs.lookup "time_slot_details").getD .null with
    | .arr _ => false
    | _ => true
  | _ => true

/-- The spec conditions for a DataFormatError: the payload does not decode;
or the body and availability container keys do not both resolve through
objects; or a list field (time_slots, resources, or the detail list of a
resource the loop commits to) is absent or not list-shaped. -/
def dataFormatCondition (o : Option Json) : Bool :=
  match o with
  | none => true
  | some _ =>
    match availOf o with
    | none => true
    | some (.obj af) =>
      (match (af.lookup "time_slots").getD .null with
       | .arr _ => false
       | _ => true) ||
      (match (af.lookup "resources").getD .null with
       | .arr _ => false
       | _ => true) ||
      (match (af.lookup "resources").getD .null with
       | .arr rs => rs.any (fun r => resourceCommitted r && resourceBadDetails r)
       | _ => false)
    | some _ => false

/-- A resource entry whose accesses are all well-typed: the entry is an
object, a truthy resource name is a string, and when the detail list is
list-shaped its entries are objects. -/
def resourceSafe (res : Json) : Bool :=
  match res with
  | .obj fs =>
    (match (fs.lookup "resource_name").getD .null with
     | .str _ => true
     | v => !pyTruthy v) &&
    (match (fs.lookup "time_slot_details").getD .null with
     | .arr ds => ds.all (fun d => match d with | .obj _ => true | _ => false)
     | _ => true)
  | _ => false

/-- Payloads whose accessed positions hold containers of the expected
Python type, so no membership test, subscription, attribute access, slice
or dict-key use raises before the shape checks do.  The predicate is a
little stricter than reachability-exact crash freedom on branches an early
failure already cuts off, which only shrinks the domain of the statements
below. -/
def typeSafe : Option Json → Bool
  | none => true
  | some j =>
    match j with
    | .obj fs =>
      match fs.lookup "body" with
      | none => true
      | some b =>
        match b with
        | .obj bs =>
          match bs.lookup "availability" with
          | none => true
          | some avail =>
            match avail with
            | .obj af =>
              (match (af.lookup "time_slots").getD .null with
               | .arr ts => ts.all (fun t => match t with | .str _ => true | _ => false)
               | _ => true) &&
              (match (af.lookup "resources").getD .null with
               | .arr rs => rs.all resourceSafe
               | _ => true)
            | _ => false
        | .arr xs => !xs.any (fun x => pyEq x (.str "availability"))
        | .str s => !substrOf "availability" s
        | _ => false
    | .arr xs => !xs.any (fun x => pyEq x (.str "body"))
    | .str s => !substrOf "body" s
    | _ => false

/-- Calendar event as read back by the existing-events reader: id, summary
(the title) and the start and end instants as rendered text.  The field
named end in the source dict is called endTime here (end is a Lean
keyword). -/
structure GEvent where
  id : String
  summary : String
  start : String
  endTime : String
deriving DecidableEq

/-- Creation request: the dict with summary, start and end that diff_events
emits for a missing desired event. -/
structure EventReq where
  summary : String
  start : String
  endTime : String
deriving DecidableEq

/-- Identity triples rendered from the desired mapping (court name to
interval list) in iteration order; the desired_tuples set of the source is
this list used for membership only. -/
def desiredTriples (desired_slots : List (String × List (String × String))) :
    List (String × String × String) :=
  desired_slots.foldl (fun acc p => acc ++ p.2.map (fun e => (p.1, e.1, e.2))) []

/-- The desired_events list built in the same pass. -/
def desiredEvents (desired_slots : List (String × List (String × String))) :
    List EventReq :=
  desired_slots.foldl (fun acc p => acc ++ p.2.map (fun e => EventReq.mk p.1 e.1 e.2)) []

/-- Identity triples of the existing events. -/
def existingTriples (existing_events : List GEvent) : List (String × String × String) :=
  existing_events.map (fun ev => (ev.summary, ev.start, ev.endTime))

/-- diff_events (source lines 321-357): create the desired events whose
triple is not among the existing triples, delete the ids of existing events
whose triple is not among the desired triples. -/
def diff_events (desired_slots : List (String × List (String × String)))
    (existing_events : List GEvent) : List EventReq × List String :=
  let desired_tuples := desiredTriples desired_slots
  let existing_tuples := existingTriples existing_events
  let events_to_create := (desiredEvents desired_slots).filter
    (fun ev => !existing_tuples.contains (ev.summary, ev.start, ev.endTime))
  let events_to_delete := (existing_events.filter
    (fun ev => !desired_tuples.contains (ev.summary, ev.start, ev.endTime))).map
      (fun ev => ev.id)
  (events_to_create, events_to_delete)

/-- Possible outcomes of delete_google_event in hayward_tennis_sync.py
(source lines 391-419). -/
inductive SyncDeleteOutcome where
  | dryRun : SyncDeleteOutcome
  | deleted : SyncDeleteOutcome
  | warnedNotFound : SyncDeleteOutcome
  | fatalExit : SyncDeleteOutcome
deriving DecidableEq

/-- delete_google_event of hayward_tennis_sync.py as a function of the API
delete outcome (success, or an exception rendered by str(e)): a dry run
only logs; a failure whose text contains 404 is logged as a warning and the
run continues; any other failure calls sys.exit(1). -/
def delete_google_event_sync (dry_run : Bool) (api : Except String Unit) :
    SyncDeleteOutcome :=
  if dry_run then .dryRun
  else
    match api with
    | .ok _ => .deleted
    | .error e => if substrOf "404" e then .warnedNotFound else .fatalExit

/-- Exceptions the delete call of delete_all_events.py distinguishes:
HttpError carrying a response status, or any other exception. -/
inductive ApiError where
  | http : Nat → String → ApiError
  | other : String → ApiError

/-- Possible outcomes of delete_google_event in delete_all_events.py
(source lines 114-146). -/
inductive DelDeleteOutcome where
  | dryRun : DelDeleteOutcome
  | deleted : DelDeleteOutcome
  | warnedNotFound : DelDeleteOutcome
  | loggedErrorContinued : DelDeleteOutcome
deriving DecidableEq

/-- delete_google_event of delete_all_events.py: a dry run only logs; an
HttpError with status 404 or 410 is a warning; every other failure is
logged and execution continues (the exits are commented out). -/
def delete_google_event_del (dry_run : Bool) (api : Except ApiError Unit) :
    DelDeleteOutcome :=
  if dry_run then .dryRun
  else
    match api with
    | .ok _ => .deleted
    | .error (.http status _) =>
      if status == 404 || status == 410 then .warnedNotFound else .loggedErrorContinued
    | .error (.other _) => .loggedErrorContinued

/-- Injective rendering of a wall-clock instant, standing for
datetime.isoformat.  The exact text never matters to the claims below, only
that distinct instants render distinctly, which isoformat guarantees within
the single configured timezone. -/
def isoRender (n : Nat) : String :=
  "iso" ++ toString n

/-- Desired state with its interval bounds rendered to text, as main hands
it to diff_events. -/
def renderDesired (c : Consolidated) :
    List (String × List (String × List (String × String))) :=
  c.map (fun p =>
    (p.1, p.2.map (fun q => (q.1, q.2.map (fun iv => (isoRender iv.1, isoRender iv.2))))))

/-- Outcome of the availability fetch for one date: an exception, or a byte
payload modelled by its decoded value (none when json.loads would fail). -/
inductive FetchOutcome where
  | raised : FetchOutcome
  | ok : Option Json → FetchOutcome

/-- Outcome of the per-calendar existing-events read. -/
inductive CalReadOutcome where
  | raised : CalReadOutcome
  | ok : List GEvent → CalReadOutcome

/-- What main did for one configured group. -/
inductive GroupReport where
  | skippedNoData : GroupReport
  | skippedReadFail : GroupReport
  | synced : List EventReq → List String → GroupReport
deriving DecidableEq

/-- Result of one run of main: abort during the date loop (a raised fetch
propagates uncaught, a parse failure exits; either way the process dies
with a non-zero status), or completion with a report per configured
group. -/
inductive RunResult where
  | fatalFetch : String → RunResult
  | fatalParse : String → RunResult
  | completed : List (String × GroupReport) → RunResult

/-- Calendar operations main issues, tagged with location and calendar id.
In dry-run mode the same operations are chosen and logged instead of sent,
so the dry flag does not change this list. -/
inductive CalOp where
  | listEvents : String → String → CalOp
  | create : String → String → EventReq → CalOp
  | delete : String → String → String → CalOp
deriving DecidableEq

/-- Location tag of an operation. -/
def CalOp.loc : CalOp → String
  | .listEvents l _ => l
  | .create l _ _ => l
  | .delete l _ _ => l

/-- The per-date fetch-and-parse loop of main (source lines 443-452): a
raised fetch aborts the run (uncaught exception), a parse failure aborts it
(ValueError through sys.exit(1), any other exception uncaught), and each
successful daily result is merged into the accumulator by dict.update. -/
def gatherDates (fetch : String → FetchOutcome) :
    List String → List (String × LocMap) → Except RunResult (List (String × LocMap))
  | [], acc => .ok acc
  | d :: ds, acc =>
    match fetch d with
    | .raised => .error (.fatalFetch d)
    | .ok payload =>
      match parse_reservation_data payload (some d) with
      | .error _ => .error (.fatalParse d)
      | .ok daily => gatherDates fetch ds (daily.foldl (fun a p => assocSet a p.1 p.2) acc)

/-- The desired state main would compute, when every date fetches and
parses. -/
def desiredStateOf (fetch : String → FetchOutcome) (dates : List String) :
    Option (List (String × List (String × List (String × String)))) :=
  match gatherDates fetch dates [] with
  | .error _ => none
  | .ok all => some (renderDesired (consolidate_booked_slots all))

/-- The per-group loop of main (source lines 465-483): a group absent from
the desired state is skipped before any calendar access; an exception in
the existing-events read is caught, logged and the loop continues with the
next group; otherwise the group is diffed and creates are issued before
deletes.  Write outcomes are not modelled (no claim concerns them). -/
def groupLoop (read : String → String → CalReadOutcome)
    (desired : List (String × List (String × List (String × String)))) :
    List (String × String) → List (String × GroupReport) × List CalOp
  | [] => ([], [])
  | (loc, cal) :: rest =>
    let r := groupLoop read desired rest
    match desired.lookup loc with
    | none => ((loc, .skippedNoData) :: r.1, r.2)
    | some dslots =>
      match read loc cal with
      | .raised => ((loc, .skippedReadFail) :: r.1, .listEvents loc cal :: r.2)
      | .ok evs =>
        let d := diff_events dslots evs
        ((loc, .synced d.1 d.2) :: r.1,
          .listEvents loc cal ::
            (d.1.map (fun ev => .create loc cal ev) ++ d.2.map (fun i => .delete loc cal i)
              ++ r.2))

/-- main of hayward_tennis_sync.py (source lines 421-485) as a function of
the collaborator behaviours, the date range and the configured groups:
fetch and parse every date (fail-fast), consolidate, then reconcile each
group. -/
def mainModel (fetch : String → FetchOutcome) (read : String → String → CalReadOutcome)
    (dates : List String) (groups : List (String × String)) : RunResult × List CalOp :=
  match gatherDates fetch dates [] with
  | .error r => (r, [])
  | .ok all =>
    let desired := renderDesired (consolidate_booked_slots all)
    let g := groupLoop read desired groups
    (.completed g.1, g.2)

/-- The configured location-to-calendar mapping of the source. -/
def LOCATION_TO_CALENDAR : List (String × String) :=
  [("Mervin",
    "c1b24574cbbcfe3d62b323de33ebc50956edf9212737a88f9423c661c5e37204@group.calendar.google.com"),
   ("Bay",
    "8320fe0a847ce736584415a3777a3d4eb69e650d459ae9329fa1aaed42cf36d1@group.calendar.google.com")]

/-- main with the configured mapping. -/
def mainRun (fetch : String → FetchOutcome) (read : String → String → CalReadOutcome)
    (dates : List String) : RunResult × List CalOp :=
  mainModel fetch read dates LOCATION_TO_CALENDAR

/-- One date of the fetch-and-parse loop succeeds: the fetch returns a
payload and the payload parses. -/
def dateOK (fetch : String → FetchOutcome) (d : String) : Bool :=
  match fetch d with
  | .raised => false
  | .ok p =>
    match parse_reservation_data p (some d) with
    | .ok _ => true
    | .error _ => false

theorem toMin_renderSlot : ∀ k : Fin 48, toMin (renderSlot k) = 30 * (k : Nat) := by
  decide

theorem renderSlot_le_iff :
    ∀ k1 k2 : Fin 48, (labelLe (renderSlot k1) (renderSlot k2) ↔ (k1 : Nat) ≤ (k2 : Nat)) := by
  decide

theorem charListLe_total : ∀ a b : List Char, charListLe a b = true ∨ charListLe b a = true := by
  intro a
  induction a with
  | nil => intro b; left; rfl
  | cons x xs ih =>
    intro b
    cases b with
    | nil => right; rfl
    | cons y ys =>
      by_cases hxy : x = y
      · subst hxy
        simp only [charListLe, beq_self_eq_true, if_true]
        exact ih ys
      · have h1 : (x == y) = false := beq_eq_false_iff_ne.mpr hxy
        have h2 : (y == x) = false := beq_eq_false_iff_ne.mpr (Ne.symm hxy)
        simp only [charListLe, h1, h2, if_false]
        rcases Nat.lt_trichotomy x.toNat y.toNat with h | h | h
        · left; exact decide_eq_true h
        · exact absurd (Char.eq_of_val_eq (UInt32.toNat.inj h)) hxy
        · right; exact decide_eq_true h

theorem charListLe_trans : ∀ a b c : List Char,
    charListLe a b = true → charListLe b c = true → charListLe a c = true := by
  intro a
  induction a with
  | nil => intro b c _ _; rfl
  | cons x xs ih =>
    intro b c hab hbc
    cases b with
    | nil => simp [charListLe] at hab
    | cons y ys =>
      cases c with
      | nil => simp [charListLe] at hbc
      | cons z zs =>
        by_cases hxy : x = y
        · subst hxy
          by_cases hyz : x = z
          · subst hyz
            simp only [charListLe, beq_self_eq_true, if_true] at hab hbc ⊢
            exact ih ys zs hab hbc
          · have h1 : (x == z) = false := beq_eq_false_iff_ne.mpr hyz
            simp [charListLe, h1] at hbc ⊢
            exact hbc
        · have h1 : (x == y) = false := beq_eq_false_iff_ne.mpr hxy
          by_cases hyz : y = z
          · subst hyz
            simp [charListLe, h1] at hab ⊢
            exact hab
          · have h2 : (y == z) = false := beq_eq_false_iff_ne.mpr hyz
            by_cases hxz : x = z
            · subst hxz
              exfalso
              simp [charListLe, h1, h2] at hab hbc
              omega
            · have h3 : (x == z) = false := beq_eq_false_iff_ne.mpr hxz
              simp [charListLe, h1, h2, h3] at hab hbc ⊢
              omega

theorem charListLe_antisymm : ∀ a b : List Char,
    charListLe a b = true → charListLe b a = true → a = b := by
  intro a
  induction a with
  | nil =>
    intro b hab hba
    cases b with
    | nil => rfl
    | cons y ys => simp [charListLe] at hba
  | cons x xs ih =>
    intro b hab hba
    cases b with
    | nil => simp [charListLe] at hab
    | cons y ys =>
      by_cases hxy : x = y
      · subst hxy
        simp only [charListLe, beq_self_eq_true, if_true] at hab hba
        rw [ih ys hab hba]
      · exfalso
        have h1 : (x == y) = false := beq_eq_false_iff_ne.mpr hxy
        have h2 : (y == x) = false := beq_eq_false_iff_ne.mpr (Ne.symm hxy)
        simp [charListLe, h1, h2] at hab hba
        omega

instance : IsTotal String labelLe :=
  ⟨fun a b => charListLe_total a.data b.data⟩

instance : IsTrans String labelLe :=
  ⟨fun a b c => charListLe_trans a.data b.data c.data⟩

instance : IsAntisymm String labelLe :=
  ⟨fun a b h1 h2 => by
    have h := charListLe_antisymm a.data b.data h1 h2
    cases a; cases b; exact congrArg String.mk h⟩

/-- Sorting a label list that is a permutation of an already sorted target
produces exactly that target. -/
theorem sort_eq_of_perm {l target : List String} (hperm : l.Perm target)
    (hsorted : List.Sorted labelLe target) :
    List.insertionSort labelLe l = target :=
  List.eq_of_perm_of_sorted ((List.perm_insertionSort labelLe l).trans hperm)
    (List.sorted_insertionSort labelLe l) hsorted

theorem foldl_append_eq {α β : Type} (g : α → List β) :
    ∀ (l : List α) (a : List β),
      List.foldl (fun acc p => acc ++ g p) a l = a ++ l.flatMap g := by
  intro l
  induction l with
  | nil => intro a; simp
  | cons x xs ih =>
    intro a
    simp only [List.foldl, List.flatMap_cons, ih, List.append_assoc]

theorem desiredTriples_eq (d : List (String × List (String × String))) :
    desiredTriples d
      = (desiredEvents d).map (fun ev => (ev.summary, ev.start, ev.endTime)) := by
  unfold desiredTriples desiredEvents
  rw [foldl_append_eq, foldl_append_eq]
  simp only [List.nil_append, List.map_flatMap, List.map_map]
  rfl

/-- C1: when the identity triples of the existing events coincide, as a
set, with the triples rendered from the desired state, diff_events returns
an empty create list and an empty delete list. -/
theorem C1_diff_idempotence (desired : List (String × List (String × String)))
    (existing : List GEvent)
    (h : ∀ t : String × String × String,
      t ∈ existingTriples existing ↔ t ∈ desiredTriples desired) :
    diff_events desired existing = ([], []) := by
  unfold diff_events
  have hc : (desiredEvents desired).filter
      (fun ev => !(existingTriples existing).contains (ev.summary, ev.start, ev.endTime))
        = [] := by
    apply List.filter_eq_nil_iff.mpr
    intro ev hev
    have hd : (ev.summary, ev.start, ev.endTime) ∈ desiredTriples desired := by
      rw [desiredTriples_eq]
      exact List.mem_map_of_mem _ hev
    have hm := (h _).mpr hd
    simp only [List.elem_eq_true_of_mem hm, Bool.not_true]
    exact Bool.false_ne_true
  have hd : (existing.filter
      (fun ev => !(desiredTriples desired).contains (ev.summary, ev.start, ev.endTime)))
        = [] := by
    apply List.filter_eq_nil_iff.mpr
    intro ev hev
    have he : (ev.summary, ev.start, ev.endTime) ∈ existingTriples existing :=
      List.mem_map_of_mem _ hev
    have hm := (h _).mp he
    simp only [List.elem_eq_true_of_mem hm, Bool.not_true]
    exact Bool.false_ne_true
  dsimp only
  rw [hc, hd]
  rfl

/-- Witness for C1 at a concrete matching pair. -/
theorem C1_diff_idempotence_witness :
    diff_events [("Court 1", [("s1", "e1")])]
      [⟨"idA", "Court 1", "s1", "e1"⟩] = ([], []) :=
  C1_diff_idempotence _ _ (fun _ => Iff.rfl)

/-- C2: a sub-resource whose booked slots on date D are exactly 09:00,
09:30 and 10:30 consolidates to exactly the two intervals
[D 09:00, D 10:00) and [D 10:30, D 11:00), in that order (instants are
wall-clock minutes, so minute 540 of day dayNum D is D 09:00). -/
theorem C2_consolidation_example (D loc court : String) (slots : SlotMap)
    (_hD : isValidDate D = true)
    (hperm : (bookedTimes slots).Perm ["09:00", "09:30", "10:30"]) :
    consolidate_booked_slots [(D, [(loc, [(court, slots)])])] =
      [(loc, [(court,
        [(1440 * dayNum D + 540, 1440 * dayNum D + 600),
         (1440 * dayNum D + 630, 1440 * dayNum D + 660)])])] := by
  have hsorted : List.Sorted labelLe ["09:00", "09:30", "10:30"] := by decide
  have hsort := sort_eq_of_perm hperm hsorted
  have hne : (bookedTimes slots).isEmpty = false := by
    cases hbt : bookedTimes slots with
    | nil => rw [hbt] at hperm; exact absurd hperm.length_eq (by simp)
    | cons a l => rfl
  have hev : courtEvents D slots =
      [(1440 * dayNum D + 540, 1440 * dayNum D + 600),
       (1440 * dayNum D + 630, 1440 * dayNum D + 660)] := by
    unfold courtEvents
    rw [hsort]
    have h1 : slotInstant D "09:00" = 1440 * dayNum D + 540 := rfl
    have h2 : slotInstant D "09:30" = 1440 * dayNum D + 570 := rfl
    have h3 : slotInstant D "10:30" = 1440 * dayNum D + 630 := rfl
    simp only [List.map, h1, h2, h3]
    have c1 : 1440 * dayNum D + 570 = 1440 * dayNum D + 540 + 30 := by omega
    have c2 : ¬(1440 * dayNum D + 630 = 1440 * dayNum D + 540 + 30 + 30) := by omega
    have e1 : 1440 * dayNum D + 540 + 30 + 30 = 1440 * dayNum D + 600 := by omega
    have e2 : 1440 * dayNum D + 630 + 30 = 1440 * dayNum D + 660 := by omega
    simp only [mergeScan, if_pos c1, if_neg c2, e1, e2]
    simp
  unfold consolidate_booked_slots
  simp only [List.foldl, hne, Bool.false_eq_true, if_false, hev]
  rfl

/-- Witness for C2 at a concrete date and slot map. -/
theorem C2_consolidation_example_witness :
    consolidate_booked_slots [("2025-04-20", [("Mervin", [("Court 1",
      [("09:00", true), ("09:30", true), ("10:00", false), ("10:30", true)])])])] =
      [("Mervin", [("Court 1",
        [(1440 * dayNum "2025-04-20" + 540, 1440 * dayNum "2025-04-20" + 600),
         (1440 * dayNum "2025-04-20" + 630, 1440 * dayNum "2025-04-20" + 660)])])] :=
  C2_consolidation_example "2025-04-20" "Mervin" "Court 1" _ (by decide) (by decide)

/-- C4 counterexample: an already-gone delete rendered as a 410 makes the
sync variant abort via sys.exit(1) instead of warning (its check looks only
for 404 in the error text), and a delete failure that is not a not-found
error makes the delete_all_events variant log and continue instead of
aborting; both contradict the claim as stated. -/
theorem C4_counterexample :
    delete_google_event_sync false (.error "HttpError 410 Gone") = .fatalExit ∧
    delete_google_event_sync false (.error "HttpError 410 Gone") ≠ .warnedNotFound ∧
    delete_google_event_del false (.error (.other "connection reset")) =
      .loggedErrorContinued := by
  refine ⟨by decide, by decide, rfl⟩

/-- C4 amended: in hayward_tennis_sync.py a non-dry-run delete failure is
tolerated with a warning exactly when its rendered text contains 404 (so a
410-equivalent aborts), and every other failure aborts via sys.exit(1); in
delete_all_events.py an HttpError with status 404 or 410 is tolerated with
a warning, and every other failure is logged and the run continues. -/
theorem C4_delete_error_policy (e : String) (status : Nat) (t msg : String) :
    (substrOf "404" e = true →
      delete_google_event_sync false (.error e) = .warnedNotFound) ∧
    (substrOf "404" e = false →
      delete_google_event_sync false (.error e) = .fatalExit) ∧
    ((status = 404 ∨ status = 410) →
      delete_google_event_del false (.error (.http status t)) = .warnedNotFound) ∧
    (¬(status = 404 ∨ status = 410) →
      delete_google_event_del false (.error (.http status t)) = .loggedErrorContinued) ∧
    delete_google_event_del false (.error (.other msg)) = .loggedErrorContinued := by
  refine ⟨fun h => ?_, fun h => ?_, fun h => ?_, fun h => ?_, rfl⟩
  · simp [delete_google_event_sync, h]
  · simp [delete_google_event_sync, h]
  · have : (status == 404 || status == 410) = true := by
      rcases h with h | h <;> simp [h]
    simp [delete_google_event_del, this]
  · have : (status == 404 || status == 410) = false := by
      push_neg at h
      simp [h.1, h.2]
    simp [delete_google_event_del, this]

/-- Witness for C4 amended at concrete errors. -/
theorem C4_delete_error_policy_witness :
    delete_google_event_sync false (.error "HttpError 404 Not Found") = .warnedNotFound ∧
    delete_google_event_del false (.error (.http 410 "Gone")) = .warnedNotFound :=
  ⟨(C4_delete_error_policy "HttpError 404 Not Found" 410 "Gone" "x").1 (by decide),
   (C4_delete_error_policy "HttpError 404 Not Found" 410 "Gone" "x").2.2.1 (Or.inr rfl)⟩

/-- Reduction of a bind whose left side already succeeded. -/
theorem ok_bind {α β : Type} (a : α) (f : α → Except PyErr β) :
    (Except.ok a : Except PyErr α) >>= f = f a := rfl

/-- Reduction of a bind whose left side already failed. -/
theorem error_bind {α β : Type} (e : PyErr) (f : α → Except PyErr β) :
    (Except.error e : Except PyErr α) >>= f = .error e := rfl

/-- Splitting a successful bind of the Except monad. -/
theorem except_bind_ok {α β : Type} {x : Except PyErr α} {f : α → Except PyErr β} {r : β}
    (h : x.bind f = .ok r) : ∃ a, x = .ok a ∧ f a = .ok r := by
  cases x with
  | error e => simp [Except.bind] at h
  | ok a => exact ⟨a, rfl, by simpa [Except.bind] using h⟩

/-- Every successful parse result is a single entry keyed by the reference
date, or by requested_date when none is given. -/
theorem parse_ok_shape (j : Option Json) (rd : Option String)
    (r : List (String × LocMap)) (h : parse_reservation_data j rd = .ok r) :
    ∃ locs, r = [(rd.getD "requested_date", locs)] := by
  unfold parse_reservation_data at h
  cases j with
  | none => simp at h
  | some data =>
    obtain ⟨cond, hcond, h⟩ := except_bind_ok h
    cases cond with
    | false => simp at h
    | true =>
      simp only [if_true] at h
      obtain ⟨b, hb, h⟩ := except_bind_ok h
      obtain ⟨avail, ha, h⟩ := except_bind_ok h
      obtain ⟨locs, hl, h⟩ := except_bind_ok h
      cases h
      exact ⟨locs, rfl⟩

/-- C10: called with no reference date on a payload it accepts,
parse_reservation_data returns normally with its single result entry keyed
by the literal string requested_date. -/
theorem C10_requested_date_key (j : Option Json)
    (h : (parse_reservation_data j none).isOk = true) :
    ∃ locs, parse_reservation_data j none = .ok [("requested_date", locs)] := by
  cases hp : parse_reservation_data j none with
  | error e => rw [hp] at h; simp [Except.isOk, Except.toBool] at h
  | ok r =>
    obtain ⟨locs, hr⟩ := parse_ok_shape j none r hp
    exact ⟨locs, by rw [hr]; rfl⟩

/-- A string containing the non-empty marker substring is non-empty. -/
theorem name_nonempty_of_marker {name : String}
    (h : substrOf "Tennis Court" name = true) : name.data.isEmpty = false := by
  cases hd : name.data with
  | nil =>
    unfold substrOf at h
    rw [hd] at h
    exact absurd h (by decide)
  | cons c l => rfl

/-- A resource whose name carries the marker but splits into a number of
parts different from two takes the continue branch and leaves the state
unchanged. -/
theorem procResource_skip (ts : List Json) (fields : List (String × Json))
    (name : String) (locs : LocMap)
    (hname : fields.lookup "resource_name" = some (.str name))
    (hmark : substrOf "Tennis Court" name = true)
    (hsplit : (pySplit " - " name).length ≠ 2) :
    procResource ts (.obj fields) locs = .ok locs := by
  have h2 : pyTruthy (.str name) = true := by
    simp only [pyTruthy, name_nonempty_of_marker hmark, Bool.not_false]
  unfold procResource
  simp only [pyGet, hname, Option.getD_some, ok_bind, h2, if_true, pyContains, hmark]
  rcases hps : pySplit " - " name with _ | ⟨a, _ | ⟨b, _ | ⟨c, rest⟩⟩⟩
  · rfl
  · rfl
  · exact absurd (by rw [hps]; rfl) hsplit
  · rfl

/-- The resource loop ignores such an entry wherever it sits. -/
theorem procResources_skip_middle (ts rs1 rs2 : List Json)
    (fields : List (String × Json)) (name : String)
    (hname : fields.lookup "resource_name" = some (.str name))
    (hmark : substrOf "Tennis Court" name = true)
    (hsplit : (pySplit " - " name).length ≠ 2) :
    ∀ locs, procResources ts (rs1 ++ .obj fields :: rs2) locs
      = procResources ts (rs1 ++ rs2) locs := by
  induction rs1 with
  | nil =>
    intro locs
    simp only [List.nil_append, procResources]
    rw [procResource_skip ts fields name locs hname hmark hsplit]
    rfl
  | cons r rs ih =>
    intro locs
    simp only [List.cons_append, procResources]
    cases hr : procResource ts r locs with
    | error e => rfl
    | ok l1 => exact ih l1

/-- C9: a resource entry whose name contains the Tennis Court marker but
does not split into exactly two parts on the separator is silently skipped:
parsing with the entry present gives exactly the result of parsing without
it, and no error is raised on its account. -/
theorem C9_malformed_name_skipped (ts rs1 rs2 : List Json)
    (fields : List (String × Json)) (name : String) (rd : Option String)
    (hname : fields.lookup "resource_name" = some (.str name))
    (hmark : substrOf "Tennis Court" name = true)
    (hsplit : (pySplit " - " name).length ≠ 2) :
    parse_reservation_data (some (mkPayload ts (rs1 ++ .obj fields :: rs2))) rd =
      parse_reservation_data (some (mkPayload ts (rs1 ++ rs2))) rd := by
  have key : ∀ rs : List Json, parse_reservation_data (some (mkPayload ts rs)) rd
      = (procResources ts rs []).bind
          (fun locs => .ok [(rd.getD "requested_date", locs)]) := by
    intro rs
    rfl
  rw [key, key, procResources_skip_middle ts rs1 rs2 fields name hname hmark hsplit]

/-- Witness for C9 on a concrete payload holding only a malformed name. -/
theorem C9_malformed_name_skipped_witness :
    parse_reservation_data (some (mkPayload [] [.obj [("resource_name",
      .str "Mervin - Bay - Tennis Court 9")]])) none =
      parse_reservation_data (some (mkPayload [] [])) none :=
  C9_malformed_name_skipped [] [] [] _ "Mervin - Bay - Tennis Court 9" none rfl
    (by decide) (by decide)

/-- Witness for C10 on a concrete well-formed payload. -/
theorem C10_requested_date_key_witness :
    ∃ locs, parse_reservation_data
      (some (.obj [("body", .obj [("availability", .obj [
        ("time_slots", .arr [.str "09:00-09:30"]),
        ("resources", .arr [.obj [("resource_name", .str "Mervin - Tennis Court 1"),
          ("time_slot_details", .arr [.obj [("status", .num 1)]])]])])])])) none
      = .ok [("requested_date", locs)] :=
  C10_requested_date_key _ (by decide)

/-- Looking up the key just assigned yields the assigned value. -/
theorem lookup_assocSet_self {β : Type} (m : List (String × β)) (k : String) (v : β) :
    (assocSet m k v).lookup k = some v := by
  induction m with
  | nil => simp [assocSet, List.lookup]
  | cons p rest ih =>
    obtain ⟨k1, v1⟩ := p
    by_cases h : k1 = k
    · subst h
      simp [assocSet, List.lookup]
    · have h1 : (k1 == k) = false := beq_eq_false_iff_ne.mpr h
      have h2 : (k == k1) = false := beq_eq_false_iff_ne.mpr (Ne.symm h)
      simp [assocSet, h1, h2, List.lookup, ih]

/-- Assignment leaves every other key unchanged. -/
theorem lookup_assocSet_ne {β : Type} (m : List (String × β)) (k k1 : String) (v : β)
    (h : k1 ≠ k) : (assocSet m k v).lookup k1 = m.lookup k1 := by
  have h1 : (k1 == k) = false := beq_eq_false_iff_ne.mpr h
  induction m with
  | nil => simp [assocSet, List.lookup, h1]
  | cons p rest ih =>
    obtain ⟨k2, v2⟩ := p
    by_cases h2 : k2 = k
    · subst h2
      simp [assocSet, List.lookup, h1]
    · have h3 : (k2 == k) = false := beq_eq_false_iff_ne.mpr h2
      by_cases h4 : k1 = k2
      · subst h4
        simp [assocSet, h3, List.lookup]
      · have h5 : (k1 == k2) = false := beq_eq_false_iff_ne.mpr h4
        simp [assocSet, h3, h5, List.lookup, ih]

/-- On detail lists of objects the booked flag never raises and equals its
total form. -/
theorem detailBooked_ok (ds : List Json) (idx : Nat)
    (hds : ∀ d ∈ ds, ∃ fs, d = Json.obj fs) :
    detailBooked ds idx = .ok (expectedBooked ds idx) := by
  unfold detailBooked expectedBooked
  split
  · next h =>
    obtain ⟨fs, hfs⟩ := hds (ds.getD idx .null)
      (by rw [List.getD_eq_getElem ds .null h]; exact List.getElem_mem h)
    rw [hfs]
    rfl
  · rfl

/-- Full description of the slot-status loop on well-typed input with
distinct truncated labels: it succeeds, records every index under its
truncated label, and leaves unrelated keys of the accumulator alone. -/
theorem buildSlotStatus_spec (ds : List Json)
    (hds : ∀ d ∈ ds, ∃ fs, d = Json.obj fs) :
    ∀ (labels : List String) (idx : Nat) (acc : SlotMap),
      (labels.map slotKey).Nodup →
      ∃ m, buildSlotStatus idx (labels.map .str) ds acc = .ok m ∧
        (∀ j (hj : j < labels.length),
          m.lookup (slotKey (labels.get ⟨j, hj⟩)) = some (expectedBooked ds (idx + j))) ∧
        (∀ k, (∀ l ∈ labels, slotKey l ≠ k) → m.lookup k = acc.lookup k) := by
  intro labels
  induction labels with
  | nil =>
    intro idx acc _
    exact ⟨acc, rfl, by intro j hj; exact absurd hj (by simp), fun k _ => rfl⟩
  | cons l ls ih =>
    intro idx acc hnd
    have hstep0 : buildSlotStatus idx (.str l :: ls.map .str) ds acc
        = (detailBooked ds idx).bind (fun reserved =>
            buildSlotStatus (idx + 1) (ls.map .str) ds
              (assocSet acc (slotKey l) reserved)) := rfl
    have hstep : buildSlotStatus idx ((l :: ls).map .str) ds acc
        = buildSlotStatus (idx + 1) (ls.map .str) ds
            (assocSet acc (slotKey l) (expectedBooked ds idx)) := by
      rw [show ((l :: ls).map Json.str) = .str l :: ls.map .str from rfl, hstep0,
        detailBooked_ok ds idx hds]
      rfl
    have hndtail : (ls.map slotKey).Nodup := (List.nodup_cons.mp hnd).2
    have hheadnotin : slotKey l ∉ ls.map slotKey := (List.nodup_cons.mp hnd).1
    obtain ⟨m, hm, hlook, hframe⟩ :=
      ih (idx + 1) (assocSet acc (slotKey l) (expectedBooked ds idx)) hndtail
    refine ⟨m, by rw [hstep]; exact hm, ?_, ?_⟩
    · intro j hj
      cases j with
      | zero =>
        have hne : ∀ x ∈ ls, slotKey x ≠ slotKey l := by
          intro x hx he
          exact hheadnotin (he ▸ List.mem_map_of_mem slotKey hx)
        have := hframe (slotKey l) hne
        rw [show (l :: ls).get ⟨0, hj⟩ = l from rfl, this, lookup_assocSet_self]
        simp
      | succ j =>
        have hj2 : j < ls.length := by simpa using hj
        have := hlook j hj2
        rw [show idx + 1 + j = idx + (j + 1) from by omega] at this
        simpa using this
    · intro k hk
      rw [hframe k (fun x hx => hk x (List.mem_cons_of_mem _ hx))]
      exact lookup_assocSet_ne _ _ _ _ (fun he => hk l (List.mem_cons_self _ _) he.symm)

/-- C6 counterexample: with slot labels 09:00-09:30 and 09:00-10:00 (both
truncating to the key 09:00) and details booked at index 0 and free at
index 1, the record under the index-0 label ends up false although the
index-0 detail status equals the booked marker: the later index overwrote
the earlier one, so the per-index claim fails at index 0. -/
theorem C6_counterexample :
    parse_reservation_data (some (mkPayload
        [.str "09:00-09:30", .str "09:00-10:00"]
        [.obj [("resource_name", .str "Mervin - Tennis Court 1"),
          ("time_slot_details", .arr [.obj [("status", .num 1)],
            .obj [("status", .num 0)]])]]))
      (some "2025-04-20")
      = .ok [("2025-04-20", [("Mervin", [("Court 1", [("09:00", false)])])])] ∧
    expectedBooked [.obj [("status", .num 1)], .obj [("status", .num 0)]] 0 = true :=
  ⟨rfl, rfl⟩

/-- C6 amended: provided the truncated slot labels are pairwise distinct
(and labels are strings, accessed details objects), every index is recorded
under its truncated label as booked exactly when its detail status equals
the marker 1, and as free when the detail list has no entry at that index;
with duplicated truncated labels the shared record keeps the last such
index instead. -/
theorem C6_slot_record (labels : List String) (ds : List Json)
    (hds : ∀ d ∈ ds, ∃ fs, d = Json.obj fs)
    (hnodup : (labels.map slotKey).Nodup) :
    ∃ m, buildSlotStatus 0 (labels.map .str) ds [] = .ok m ∧
      ∀ j (hj : j < labels.length),
        m.lookup (slotKey (labels.get ⟨j, hj⟩)) = some (expectedBooked ds j) := by
  obtain ⟨m, hm, hl, _⟩ := buildSlotStatus_spec ds hds labels 0 [] hnodup
  exact ⟨m, hm, fun j hj => by simpa using hl j hj⟩

/-- Witness for C6 amended on concrete labels and details. -/
theorem C6_slot_record_witness :
    ∃ m, buildSlotStatus 0 (["09:00-09:30", "09:30-10:00"].map .str)
        [.obj [("status", .num 1)], .obj [("status", .num 0)]] [] = .ok m ∧
      ∀ j (hj : j < (["09:00-09:30", "09:30-10:00"] : List String).length),
        m.lookup (slotKey ((["09:00-09:30", "09:30-10:00"] : List String).get ⟨j, hj⟩))
          = some (expectedBooked [.obj [("status", .num 1)], .obj [("status", .num 0)]] j) :=
  C6_slot_record _ _
    (by intro d hd; fin_cases hd; exacts [⟨_, rfl⟩, ⟨_, rfl⟩])
    (by decide)

/-- One-step equations of the merge scan. -/
theorem mergeScan_cons (cs ce t : Nat) (ts : List Nat) :
    mergeScan cs ce (t :: ts) =
      if t = ce then mergeScan cs (ce + 30) ts
      else (cs, ce) :: mergeScan t (t + 30) ts := rfl

/-- The scan started on a strictly increasing list of 30-minute instants,
all at or after the running end, produces well-formed intervals and keeps
its running start as the first interval start. -/
theorem mergeScan_ok : ∀ (ts : List Nat) (cs ce : Nat),
    cs < ce → 30 ∣ ce → (∀ t ∈ ts, 30 ∣ t ∧ ce ≤ t) → ts.Pairwise (· < ·) →
    intervalsOK (mergeScan cs ce ts) ∧
      ∃ e rest, mergeScan cs ce ts = (cs, e) :: rest := by
  intro ts
  induction ts with
  | nil =>
    intro cs ce h1 _ _ _
    refine ⟨⟨List.chain'_singleton _, ?_⟩, ce, [], rfl⟩
    intro p hp
    have : p = (cs, ce) := by simpa [mergeScan] using hp
    rw [this]
    exact h1
  | cons t ts ih =>
    intro cs ce h1 h2 h3 h4
    obtain ⟨ht30, hcet⟩ := h3 t (List.mem_cons_self _ _)
    have h3t : ∀ x ∈ ts, 30 ∣ x ∧ ce ≤ x := fun x hx => h3 x (List.mem_cons_of_mem _ hx)
    have hpair := List.pairwise_cons.mp h4
    rw [mergeScan_cons]
    by_cases he : t = ce
    · rw [if_pos he]
      refine ih cs (ce + 30) (by omega) (by omega) ?_ hpair.2
      intro x hx
      have hlt : t < x := hpair.1 x hx
      have hx30 : 30 ∣ x := (h3t x hx).1
      exact ⟨hx30, by omega⟩
    · rw [if_neg he]
      have hcelt : ce < t := by omega
      obtain ⟨⟨hchain, hwf⟩, e, rest, heq⟩ :=
        ih t (t + 30) (by omega) (by omega)
          (fun x hx => ⟨(h3t x hx).1, by
            have := hpair.1 x hx
            have := (h3t x hx).1
            omega⟩) hpair.2
      refine ⟨⟨?_, ?_⟩, ce, mergeScan t (t + 30) ts, rfl⟩
      · rw [heq, List.chain'_cons]
        exact ⟨hcelt, heq ▸ hchain⟩
      · intro p hp
        rcases List.mem_cons.mp hp with rfl | hp
        · exact h1
        · exact hwf p hp

/-- Instant of a canonical slot label. -/
theorem slotInstant_renderSlot (date : String) (k : Fin 48) :
    slotInstant date (renderSlot k) = 1440 * dayNum date + 30 * (k : Nat) := by
  unfold slotInstant
  rw [toMin_renderSlot]

/-- One court with canonical, distinct slot labels yields a well-formed
interval sequence. -/
theorem courtEvents_ok (date : String) (slots : SlotMap)
    (hcanon : ∀ p ∈ slots, isCanonLabel p.1 = true)
    (hnodup : (slots.map Prod.fst).Nodup) :
    intervalsOK (courtEvents date slots) := by
  have hbt_sub : (bookedTimes slots).Sublist (slots.map Prod.fst) :=
    (List.filter_sublist slots).map Prod.fst
  have hbt_nodup : (bookedTimes slots).Nodup := hnodup.sublist hbt_sub
  have hbt_canon : ∀ l ∈ bookedTimes slots, isCanonLabel l = true := by
    intro l hl
    unfold bookedTimes at hl
    obtain ⟨p, hp, rfl⟩ := List.mem_map.mp hl
    exact hcanon p (List.mem_of_mem_filter hp)
  have hperm : (List.insertionSort labelLe (bookedTimes slots)).Perm (bookedTimes slots) :=
    List.perm_insertionSort _ _
  have hsorted : List.Sorted labelLe (List.insertionSort labelLe (bookedTimes slots)) :=
    List.sorted_insertionSort _ _
  have hsnodup : (List.insertionSort labelLe (bookedTimes slots)).Nodup :=
    hperm.nodup_iff.mpr hbt_nodup
  have hscanon : ∀ l ∈ List.insertionSort labelLe (bookedTimes slots),
      isCanonLabel l = true :=
    fun l hl => hbt_canon l (hperm.mem_iff.mp hl)
  have hstrict := hsorted.and hsnodup
  have hdvd : ∀ x ∈ (List.insertionSort labelLe (bookedTimes slots)).map
      (slotInstant date), 30 ∣ x := by
    intro x hx
    obtain ⟨l, hl, rfl⟩ := List.mem_map.mp hx
    obtain ⟨k, rfl⟩ := of_decide_eq_true (hscanon l hl)
    rw [slotInstant_renderSlot]
    omega
  have hinst : ((List.insertionSort labelLe (bookedTimes slots)).map
      (slotInstant date)).Pairwise (· < ·) := by
    rw [List.pairwise_map]
    refine List.Pairwise.imp_of_mem ?_ hstrict
    intro a b ha hb hab
    obtain ⟨k1, rfl⟩ := of_decide_eq_true (hscanon a ha)
    obtain ⟨k2, rfl⟩ := of_decide_eq_true (hscanon b hb)
    have hle := (renderSlot_le_iff k1 k2).mp hab.1
    have hne : (k1 : Nat) ≠ (k2 : Nat) := fun h => hab.2 (by rw [Fin.ext h])
    rw [slotInstant_renderSlot, slotInstant_renderSlot]
    omega
  cases hm : (List.insertionSort labelLe (bookedTimes slots)).map (slotInstant date) with
  | nil =>
    have hce : courtEvents date slots = [] := by
      unfold courtEvents
      rw [hm]
    rw [hce]
    exact ⟨List.chain'_nil, by simp⟩
  | cons i is =>
    have hce : courtEvents date slots = mergeScan i (i + 30) is := by
      unfold courtEvents
      rw [hm]
    rw [hce]
    rw [hm] at hinst
    have hpc := List.pairwise_cons.mp hinst
    have hidvd : 30 ∣ i := hdvd i (hm ▸ List.mem_cons_self _ _)
    refine (mergeScan_ok is i (i + 30) (by omega) (by omega) ?_ hpc.2).1
    intro x hx
    have hx30 : 30 ∣ x := hdvd x (hm ▸ List.mem_cons_of_mem _ hx)
    have := hpc.1 x hx
    exact ⟨hx30, by omega⟩

/-- Every later interval starts strictly after the head interval ends. -/
theorem chain_head_lt (a : Nat × Nat) : ∀ l,
    List.Chain' (fun x y : Nat × Nat => x.2 < y.1) (a :: l) →
    (∀ p ∈ a :: l, p.1 < p.2) → ∀ x ∈ l, a.2 < x.1 := by
  intro l
  induction l generalizing a with
  | nil => intro _ _ x hx; simp at hx
  | cons b l ih =>
    intro hc hwf x hx
    have hab : a.2 < b.1 := (List.chain'_cons.mp hc).1
    rcases List.mem_cons.mp hx with rfl | hx
    · exact hab
    · have hb : b.2 < x.1 := ih b (List.chain'_cons.mp hc).2
        (fun p hp => hwf p (List.mem_cons_of_mem _ hp)) x hx
      have hbb : b.1 < b.2 := hwf b (List.mem_cons_of_mem _ (List.mem_cons_self _ _))
      omega

/-- Non-decreasing starts follow from the chained form. -/
theorem chain_le_of_ok : ∀ l, List.Chain' (fun x y : Nat × Nat => x.2 < y.1) l →
    (∀ p ∈ l, p.1 < p.2) → List.Chain' (fun x y : Nat × Nat => x.1 ≤ y.1) l := by
  intro l
  induction l with
  | nil => intro _ _; exact List.chain'_nil
  | cons a l ih =>
    intro hc hwf
    cases l with
    | nil => exact List.chain'_singleton _
    | cons b l2 =>
      rw [List.chain'_cons] at hc ⊢
      refine ⟨?_, ih hc.2 (fun p hp => hwf p (List.mem_cons_of_mem _ hp))⟩
      have h1 := hwf a (List.mem_cons_self _ _)
      have h2 := hc.1
      omega

/-- Pairwise disjointness without shared boundaries follows too. -/
theorem pairwise_of_ok : ∀ l, List.Chain' (fun x y : Nat × Nat => x.2 < y.1) l →
    (∀ p ∈ l, p.1 < p.2) →
    List.Pairwise (fun a b : Nat × Nat => a.2 < b.1 ∨ b.2 < a.1) l := by
  intro l
  induction l with
  | nil => intro _ _; exact List.Pairwise.nil
  | cons a l ih =>
    intro hc hwf
    rw [List.pairwise_cons]
    refine ⟨fun x hx => Or.inl (chain_head_lt a l hc hwf x hx),
      ih hc.tail (fun p hp => hwf p (List.mem_cons_of_mem _ hp))⟩

/-- The claimed per-sequence property is a consequence of well-formedness. -/
theorem claimProp_of_intervalsOK {l : List (Nat × Nat)} (h : intervalsOK l) :
    claimC3Prop l :=
  ⟨chain_le_of_ok l h.1 h.2, pairwise_of_ok l h.1 h.2⟩

/-- Successful lookup exhibits membership. -/
theorem lookup_mem {β : Type} : ∀ (m : List (String × β)) (k : String) (v : β),
    m.lookup k = some v → (k, v) ∈ m := by
  intro m
  induction m with
  | nil => intro k v h; simp [List.lookup] at h
  | cons p rest ih =>
    intro k v h
    obtain ⟨k1, v1⟩ := p
    by_cases hk : k = k1
    · subst hk
      simp [List.lookup] at h
      rw [h]
      exact List.mem_cons_self _ _
    · have h1 : (k == k1) = false := beq_eq_false_iff_ne.mpr hk
      simp [List.lookup, h1] at h
      exact List.mem_cons_of_mem _ (ih k v h)

/-- Entries of an updated association list come from the old one or are the
new binding. -/
theorem mem_assocSet {β : Type} : ∀ (m : List (String × β)) (k : String) (v : β) (p),
    p ∈ assocSet m k v → p ∈ m ∨ p = (k, v) := by
  intro m k v
  induction m with
  | nil =>
    intro p hp
    simp [assocSet] at hp
    right
    exact hp
  | cons q rest ih =>
    intro p hp
    obtain ⟨k1, v1⟩ := q
    unfold assocSet at hp
    by_cases h : (k1 == k) = true
    · rw [if_pos h] at hp
      rcases List.mem_cons.mp hp with rfl | hp
      · right; rfl
      · left; exact List.mem_cons_of_mem _ hp
    · rw [if_neg h] at hp
      rcases List.mem_cons.mp hp with rfl | hp
      · left; exact List.mem_cons_self _ _
      · rcases ih p hp with h2 | h2
        · left; exact List.mem_cons_of_mem _ h2
        · right; exact h2

/-- Invariant of the per-court fold of one location: starting from an
accumulator of well-formed sequences in which the courts about to be
processed are absent, every sequence of the result is well-formed, and
other locations are untouched. -/
theorem courtFold_ok (D loc : String) :
    ∀ (courts : CourtMap) (acc : Consolidated),
      (∀ lc ∈ acc, ∀ cs ∈ lc.2, intervalsOK cs.2) →
      (courts.map Prod.fst).Nodup →
      (∀ cs ∈ courts, (cs.2.map Prod.fst).Nodup ∧
        ∀ sl ∈ cs.2, isCanonLabel sl.1 = true) →
      (∀ cs ∈ courts, ((acc.lookup loc).getD []).lookup cs.1 = none) →
      (∀ lc ∈ courts.foldl (fun acc c =>
          if (bookedTimes c.2).isEmpty then acc
          else consUpdate acc loc c.1 (courtEvents D c.2)) acc,
        ∀ cs ∈ lc.2, intervalsOK cs.2) ∧
      (∀ l2, l2 ≠ loc → (courts.foldl (fun acc c =>
          if (bookedTimes c.2).isEmpty then acc
          else consUpdate acc loc c.1 (courtEvents D c.2)) acc).lookup l2
            = acc.lookup l2) := by
  intro courts
  induction courts with
  | nil => intro acc hA _ _ _; exact ⟨hA, fun _ _ => rfl⟩
  | cons c cs ih =>
    intro acc hA hnd hcanon hnone
    rw [List.map_cons] at hnd
    have hnd' := List.nodup_cons.mp hnd
    have hcanontail : ∀ x ∈ cs, (x.2.map Prod.fst).Nodup ∧
        ∀ sl ∈ x.2, isCanonLabel sl.1 = true :=
      fun x hx => hcanon x (List.mem_cons_of_mem _ hx)
    rw [List.foldl_cons]
    by_cases hb : (bookedTimes c.2).isEmpty = true
    · rw [if_pos hb]
      exact ih acc hA hnd'.2 hcanontail
        (fun x hx => hnone x (List.mem_cons_of_mem _ hx))
    · rw [if_neg hb]
      have hcq := hcanon c (List.mem_cons_self _ _)
      have hOKevs : intervalsOK (courtEvents D c.2) := courtEvents_ok D c.2 hcq.2 hcq.1
      have hcourtEntry : ((acc.lookup loc).getD []).lookup c.1 = none :=
        hnone c (List.mem_cons_self _ _)
      have hupd : consUpdate acc loc c.1 (courtEvents D c.2)
          = assocSet acc loc
              (assocSet ((acc.lookup loc).getD []) c.1 (courtEvents D c.2)) := by
        simp [consUpdate, hcourtEntry]
      rw [hupd]
      have hA2 : ∀ lc ∈ assocSet acc loc
          (assocSet ((acc.lookup loc).getD []) c.1 (courtEvents D c.2)),
          ∀ cs2 ∈ lc.2, intervalsOK cs2.2 := by
        intro lc hlc cs2 hcs2
        rcases mem_assocSet _ _ _ _ hlc with hlc | rfl
        · exact hA lc hlc cs2 hcs2
        · rcases mem_assocSet _ _ _ _ hcs2 with hcs2 | rfl
          · cases hLE : acc.lookup loc with
            | none => rw [hLE] at hcs2; simp at hcs2
            | some cm =>
              rw [hLE] at hcs2
              exact hA (loc, cm) (lookup_mem acc loc cm hLE) cs2 hcs2
          · exact hOKevs
      have hnone2 : ∀ x ∈ cs, (((assocSet acc loc
          (assocSet ((acc.lookup loc).getD []) c.1 (courtEvents D c.2))).lookup
            loc).getD []).lookup x.1 = none := by
        intro x hx
        rw [lookup_assocSet_self]
        have hxne : x.1 ≠ c.1 := by
          intro he
          exact hnd'.1 (he ▸ List.mem_map_of_mem Prod.fst hx)
        rw [Option.getD_some, lookup_assocSet_ne _ _ _ _ hxne]
        exact hnone x (List.mem_cons_of_mem _ hx)
      obtain ⟨hOKout, hfr⟩ := ih _ hA2 hnd'.2 hcanontail hnone2
      refine ⟨hOKout, fun l2 hl2 => (hfr l2 hl2).trans ?_⟩
      exact lookup_assocSet_ne _ _ _ _ hl2

/-- Invariant of the per-location fold on a fresh accumulator with distinct
location keys. -/
theorem locFold_ok (D : String) :
    ∀ (locs : LocMap) (acc : Consolidated),
      (∀ lc ∈ acc, ∀ cs ∈ lc.2, intervalsOK cs.2) →
      (locs.map Prod.fst).Nodup →
      (∀ q ∈ locs, (q.2.map Prod.fst).Nodup ∧
        ∀ cs ∈ q.2, (cs.2.map Prod.fst).Nodup ∧
          ∀ sl ∈ cs.2, isCanonLabel sl.1 = true) →
      (∀ q ∈ locs, acc.lookup q.1 = none) →
      ∀ lc ∈ locs.foldl (fun acc q => q.2.foldl (fun acc c =>
          if (bookedTimes c.2).isEmpty then acc
          else consUpdate acc q.1 c.1 (courtEvents D c.2)) acc) acc,
        ∀ cs ∈ lc.2, intervalsOK cs.2 := by
  intro locs
  induction locs with
  | nil => intro acc hA _ _ _; exact hA
  | cons q qs ih =>
    intro acc hA hnd hcanon hnone
    rw [List.foldl_cons]
    have hq := hcanon q (List.mem_cons_self _ _)
    have hnone_q : ∀ cs ∈ q.2, ((acc.lookup q.1).getD []).lookup cs.1 = none := by
      intro cs _
      rw [hnone q (List.mem_cons_self _ _)]
      rfl
    obtain ⟨hOK1, hfr1⟩ := courtFold_ok D q.1 q.2 acc hA hq.1 hq.2 hnone_q
    rw [List.map_cons] at hnd
    have hnd' := List.nodup_cons.mp hnd
    refine ih _ hOK1 hnd'.2 (fun x hx => hcanon x (List.mem_cons_of_mem _ hx)) ?_
    intro x hx
    rw [hfr1 x.1 (fun he => hnd'.1 (he ▸ List.mem_map_of_mem Prod.fst hx))]
    exact hnone x (List.mem_cons_of_mem _ hx)

/-- C3 counterexample: a canonical availability input listing two valid
dates in descending order produces, for one sub-resource, intervals whose
starts strictly decrease, refuting the claimed invariant for arbitrary
canonical inputs (the two intervals, lying on different days, are still
disjoint; the start-order conjunct is the one that fails). -/
theorem C3_counterexample :
    CanonicalAvail
      [("2025-04-21", [("Mervin", [("Court 1", [("09:00", true)])])]),
       ("2025-04-20", [("Mervin", [("Court 1", [("09:00", true)])])])] ∧
    ((consolidate_booked_slots
      [("2025-04-21", [("Mervin", [("Court 1", [("09:00", true)])])]),
       ("2025-04-20", [("Mervin", [("Court 1", [("09:00", true)])])])]).lookup
        "Mervin").bind (List.lookup "Court 1")
      = some [(1065121020, 1065121050), (1065119580, 1065119610)] ∧
    ¬ claimC3Prop [(1065121020, 1065121050), (1065119580, 1065119610)] := by
  refine ⟨by unfold CanonicalAvail; decide, by decide, ?_⟩
  intro h
  have hle := (List.chain'_cons.mp h.1).1
  exact absurd hle (by decide)

/-- C3 amended: on every canonical availability input restricted to a
single date, each per-sub-resource interval sequence is well formed (each
interval non-empty, each ending strictly before the next begins), hence in
non-decreasing start order, pairwise non-overlapping and non-adjacent.
Across several dates the sequence follows dict insertion order of the
dates, so the claim fails when dates are not listed ascending. -/
theorem C3_single_date_intervals (D : String) (locs : LocMap)
    (hcanon : CanonicalAvail [(D, locs)]) :
    ∀ lc ∈ consolidate_booked_slots [(D, locs)], ∀ cs ∈ lc.2,
      intervalsOK cs.2 ∧ claimC3Prop cs.2 := by
  obtain ⟨-, hall⟩ := hcanon
  obtain ⟨-, hnd, hper⟩ := hall (D, locs) (List.mem_cons_self _ _)
  have hfold : consolidate_booked_slots [(D, locs)]
      = locs.foldl (fun acc q => q.2.foldl (fun acc c =>
          if (bookedTimes c.2).isEmpty then acc
          else consUpdate acc q.1 c.1 (courtEvents D c.2)) acc) [] := rfl
  intro lc hlc cs hcs
  rw [hfold] at hlc
  have hOK := locFold_ok D locs [] (by intro lc h; simp at h) hnd
    (fun q hq => hper q hq) (fun q _ => rfl) lc hlc cs hcs
  exact ⟨hOK, claimProp_of_intervalsOK hOK⟩

/-- Witness for C3 amended on a concrete single-date input. -/
theorem C3_single_date_intervals_witness :
    intervalsOK [(1065119580, 1065119640), (1065119700, 1065119730)] ∧
      claimC3Prop [(1065119580, 1065119640), (1065119700, 1065119730)] :=
  C3_single_date_intervals "2025-04-20"
    [("Mervin", [("Court 1", [("09:00", true), ("09:30", true), ("11:00", true)])])]
    (by unfold CanonicalAvail; decide)
    ("Mervin", [("Court 1", [(1065119580, 1065119640), (1065119700, 1065119730)])])
    (by decide)
    ("Court 1", [(1065119580, 1065119640), (1065119700, 1065119730)])
    (by decide)

/-- C5 counterexample: the payload decoding to an object whose body member
is the number 5 is missing its availability container key, so the claim
demands a DataFormatError; evaluating availability in data[body] instead
raises a TypeError that escapes the parser (in main it would bypass the
except ValueError handler). -/
theorem C5_counterexample :
    parse_reservation_data (some (.obj [("body", .num 5)])) none
      = .error (.typeError "argument is not iterable") ∧
    dataFormatCondition (some (.obj [("body", .num 5)])) = true ∧
    isDataFormat (parse_reservation_data (some (.obj [("body", .num 5)])) none)
      = false :=
  ⟨rfl, rfl, rfl⟩

/-- Key membership test of a dict agrees with lookup success. -/
theorem any_key_eq_lookup_isSome {β : Type} :
    ∀ (fs : List (String × β)) (k : String),
      fs.any (fun p => p.1 == k) = (fs.lookup k).isSome := by
  intro fs k
  induction fs with
  | nil => rfl
  | cons p rest ih =>
    obtain ⟨k1, v1⟩ := p
    by_cases h : k1 = k
    · subst h
      simp [List.any_cons, List.lookup]
    · have h1 : (k1 == k) = false := beq_eq_false_iff_ne.mpr h
      have h2 : (k == k1) = false := beq_eq_false_iff_ne.mpr (Ne.symm h)
      simp [List.any_cons, List.lookup, h1, h2, ih]

/-- The slot-status loop succeeds whenever its labels are strings and its
accessed details objects. -/
theorem buildSlotStatus_ok_safe (ds : List Json)
    (hds : ∀ d ∈ ds, ∃ fs, d = Json.obj fs) :
    ∀ (ts : List Json) (idx : Nat) (acc : SlotMap),
      (∀ t ∈ ts, ∃ s, t = Json.str s) →
      ∃ m, buildSlotStatus idx ts ds acc = .ok m := by
  intro ts
  induction ts with
  | nil => intro idx acc _; exact ⟨acc, rfl⟩
  | cons t ts ih =>
    intro idx acc hts
    obtain ⟨s, rfl⟩ := hts t (List.mem_cons_self _ _)
    have h1 : buildSlotStatus idx (.str s :: ts) ds acc
        = (detailBooked ds idx).bind (fun reserved =>
            buildSlotStatus (idx + 1) ts ds (assocSet acc (s.take 5) reserved)) := rfl
    rw [h1, detailBooked_ok ds idx hds]
    exact ih (idx + 1) _ (fun x hx => hts x (List.mem_cons_of_mem _ hx))

/-- Exhaustive behaviour of one loop iteration on a well-typed resource:
either the loop commits to the resource and its detail list is not
list-shaped, raising the ValueError, or the iteration succeeds. -/
theorem procResource_cases (ts : List Json) (r : Json) (locs : LocMap)
    (hr : resourceSafe r = true)
    (hts : ∀ t ∈ ts, ∃ s, t = Json.str s) :
    ((resourceCommitted r && resourceBadDetails r) = true ∧
      procResource ts r locs
        = .error (.valueError "Expected time_slot_details to be a list")) ∨
    ((resourceCommitted r && resourceBadDetails r) = false ∧
      ∃ locs2, procResource ts r locs = .ok locs2) := by
  cases r with
  | obj fs =>
    unfold resourceSafe at hr
    rw [Bool.and_eq_true] at hr
    have hstep : procResource ts (.obj fs) locs
        = (if pyTruthy ((fs.lookup "resource_name").getD .null) then do
            let marked ← pyContains "Tennis Court" ((fs.lookup "resource_name").getD .null)
            if marked then
              match ((fs.lookup "resource_name").getD .null) with
              | .str name =>
                match pySplit " - " name with
                | [location, court_full] => do
                  let court_name := pyReplace court_full "Tennis Court " "Court "
                  let locs1 := if (locs.lookup location).isSome then locs
                    else assocSet locs location []
                  let details ← pyGet (.obj fs) "time_slot_details"
                  match details with
                  | .arr ds => do
                    let slot_status ← buildSlotStatus 0 ts ds []
                    let courts := (locs1.lookup location).getD []
                    .ok (assocSet locs1 location (assocSet courts court_name slot_status))
                  | _ => .error (.valueError "Expected time_slot_details to be a list")
                | _ => .ok locs
              | _ => .error (.attributeError "split")
            else
              .ok locs
          else
            .ok locs) := rfl
    cases hnv : (fs.lookup "resource_name").getD .null with
    | str name =>
      rw [hnv] at hstep
      cases hemp : name.data.isEmpty with
      | true =>
        have htr : pyTruthy (.str name) = false := by simp [pyTruthy, hemp]
        have hsub : substrOf "Tennis Court" name = false := by
          unfold substrOf
          rw [List.isEmpty_iff.mp hemp]
          rfl
        right
        refine ⟨by simp [resourceCommitted, hnv, hsub], locs, ?_⟩
        rw [hstep, htr]
        rfl
      | false =>
        have htr : pyTruthy (.str name) = true := by simp [pyTruthy, hemp]
        rw [hstep, htr, if_pos rfl]
        have hpc : pyContains "Tennis Court" (.str name)
            = .ok (substrOf "Tennis Court" name) := rfl
        rw [hpc, ok_bind]
        cases hsub : substrOf "Tennis Court" name with
        | false =>
          right
          exact ⟨by simp [resourceCommitted, hnv, hsub], locs, rfl⟩
        | true =>
          rw [if_pos rfl]
          dsimp only
          rcases hps : pySplit " - " name with _ | ⟨a, _ | ⟨b, _ | ⟨c, rest⟩⟩⟩
          · right
            exact ⟨by simp [resourceCommitted, hnv, hsub, hps], locs, rfl⟩
          · right
            exact ⟨by simp [resourceCommitted, hnv, hsub, hps], locs, rfl⟩
          · have hcom : resourceCommitted (.obj fs) = true := by
              simp [resourceCommitted, hnv, hsub, hps]
            have hget : pyGet (.obj fs) "time_slot_details"
                = .ok ((fs.lookup "time_slot_details").getD .null) := rfl
            dsimp only
            rw [hget, ok_bind]
            cases hdv : (fs.lookup "time_slot_details").getD .null with
            | arr ds =>
              have hbad : resourceBadDetails (.obj fs) = false := by
                simp [resourceBadDetails, hdv]
              have hds : ∀ d ∈ ds, ∃ gs, d = Json.obj gs := by
                intro d hd
                have h2 := hr.2
                rw [hdv] at h2
                have h3 := List.all_eq_true.mp h2 d hd
                cases d with
                | obj gs => exact ⟨gs, rfl⟩
                | null => simp at h3
                | bool x => simp at h3
                | num x => simp at h3
                | str x => simp at h3
                | arr x => simp at h3
              obtain ⟨m, hm⟩ := buildSlotStatus_ok_safe ds hds ts 0 [] hts
              right
              refine ⟨by simp [hcom, hbad], ?_⟩
              dsimp only
              rw [hm]
              exact ⟨_, rfl⟩
            | null =>
              left
              exact ⟨by simp [hcom, resourceBadDetails, hdv], rfl⟩
            | bool x =>
              left
              exact ⟨by simp [hcom, resourceBadDetails, hdv], rfl⟩
            | num x =>
              left
              exact ⟨by simp [hcom, resourceBadDetails, hdv], rfl⟩
            | str x =>
              left
              exact ⟨by simp [hcom, resourceBadDetails, hdv], rfl⟩
            | obj gs =>
              left
              exact ⟨by simp [hcom, resourceBadDetails, hdv], rfl⟩
          · right
            exact ⟨by simp [resourceCommitted, hnv, hsub, hps], locs, rfl⟩
    | null =>
      right
      refine ⟨by simp [resourceCommitted, hnv], locs, ?_⟩
      rw [hstep, hnv]
      rfl
    | bool x =>
      have htr : pyTruthy (.bool x) = false := by
        have h1 := hr.1
        rw [hnv] at h1
        simpa [pyTruthy] using h1
      right
      refine ⟨by simp [resourceCommitted, hnv], locs, ?_⟩
      rw [hstep, hnv, htr]
      rfl
    | num x =>
      have htr : pyTruthy (.num x) = false := by
        have h1 := hr.1
        rw [hnv] at h1
        simpa [pyTruthy] using h1
      right
      refine ⟨by simp [resourceCommitted, hnv], locs, ?_⟩
      rw [hstep, hnv, htr]
      rfl
    | arr x =>
      have htr : pyTruthy (.arr x) = false := by
        have h1 := hr.1
        rw [hnv] at h1
        simpa [pyTruthy] using h1
      right
      refine ⟨by simp [resourceCommitted, hnv], locs, ?_⟩
      rw [hstep, hnv, htr]
      rfl
    | obj gs =>
      have htr : pyTruthy (.obj gs) = false := by
        have h1 := hr.1
        rw [hnv] at h1
        simpa [pyTruthy] using h1
      right
      refine ⟨by simp [resourceCommitted, hnv], locs, ?_⟩
      rw [hstep, hnv, htr]
      rfl
  | null => simp [resourceSafe] at hr
  | bool x => simp [resourceSafe] at hr
  | num x => simp [resourceSafe] at hr
  | str x => simp [resourceSafe] at hr
  | arr x => simp [resourceSafe] at hr

/-- One-step equation of the resource loop. -/
theorem procResources_cons (ts : List Json) (r : Json) (rs : List Json) (locs : LocMap) :
    procResources ts (r :: rs) locs
      = (procResource ts r locs).bind (fun l1 => procResources ts rs l1) := rfl

/-- Exhaustive behaviour of the resource loop on well-typed entries: it
raises the detail-list ValueError exactly when some entry it commits to has
a detail field that is not list-shaped, and succeeds otherwise. -/
theorem procResources_cases (ts : List Json)
    (hts : ∀ t ∈ ts, ∃ s, t = Json.str s) :
    ∀ (rs : List Json) (locs : LocMap),
      (∀ r ∈ rs, resourceSafe r = true) →
      ((rs.any (fun r => resourceCommitted r && resourceBadDetails r) = true ∧
        procResources ts rs locs
          = .error (.valueError "Expected time_slot_details to be a list")) ∨
       (rs.any (fun r => resourceCommitted r && resourceBadDetails r) = false ∧
        ∃ locs2, procResources ts rs locs = .ok locs2)) := by
  intro rs
  induction rs with
  | nil => intro locs _; right; exact ⟨rfl, locs, rfl⟩
  | cons r rs ih =>
    intro locs hsafe
    rcases procResource_cases ts r locs (hsafe r (List.mem_cons_self _ _)) hts with
      ⟨hcb, herr⟩ | ⟨hcb, locs2, hok⟩
    · left
      refine ⟨by simp [List.any_cons, hcb], ?_⟩
      rw [procResources_cons, herr]
      rfl
    · rcases ih locs2 (fun x hx => hsafe x (List.mem_cons_of_mem _ hx)) with
        ⟨ha, herr2⟩ | ⟨ha, locs3, hok3⟩
      · left
        refine ⟨by simp [List.any_cons, ha], ?_⟩
        rw [procResources_cons, hok]
        exact herr2
      · right
        refine ⟨by simp [List.any_cons, hcb, ha], locs3, ?_⟩
        rw [procResources_cons, hok]
        exact hok3


/-- Resolution of the compound membership condition on well-typed payloads:
it is false exactly when the body/availability path does not resolve
through objects, and when true the two subscriptions return the containers
and the type-safety facts about the availability fields hold. -/
theorem bodyAvailCheck_cases (j : Json) (hsafe : typeSafe (some j) = true) :
    (availOf (some j) = none ∧ bodyAvailCheck j = .ok false) ∨
    (∃ bs af, availOf (some j) = some (.obj af) ∧ bodyAvailCheck j = .ok true ∧
      pyIndex j "body" = .ok (.obj bs) ∧
      pyIndex (.obj bs) "availability" = .ok (.obj af) ∧
      (match (af.lookup "time_slots").getD .null with
       | .arr ts2 => ts2.all (fun t => match t with | .str _ => true | _ => false)
       | _ => true) = true ∧
      (match (af.lookup "resources").getD .null with
       | .arr rs2 => rs2.all resourceSafe
       | _ => true) = true) := by
  cases j with
  | null => simp [typeSafe] at hsafe
  | bool x => simp [typeSafe] at hsafe
  | num x => simp [typeSafe] at hsafe
  | str s =>
    have hsub : substrOf "body" s = false := by simpa [typeSafe] using hsafe
    left
    refine ⟨rfl, ?_⟩
    unfold bodyAvailCheck
    have e : pyContains "body" (.str s) = .ok (substrOf "body" s) := rfl
    rw [e, hsub, ok_bind]
    rfl
  | arr xs =>
    have hany : xs.any (fun x => pyEq x (.str "body")) = false := by
      simpa [typeSafe] using hsafe
    left
    refine ⟨rfl, ?_⟩
    unfold bodyAvailCheck
    have e : pyContains "body" (.arr xs)
        = .ok (xs.any (fun x => pyEq x (.str "body"))) := rfl
    rw [e, hany, ok_bind]
    rfl
  | obj fs =>
    cases hlb : fs.lookup "body" with
    | none =>
      have hany : fs.any (fun p => p.1 == "body") = false := by
        rw [any_key_eq_lookup_isSome, hlb]
        rfl
      left
      refine ⟨by simp [availOf, hlb], ?_⟩
      unfold bodyAvailCheck
      have e : pyContains "body" (.obj fs)
          = .ok (fs.any (fun p => p.1 == "body")) := rfl
      rw [e, hany, ok_bind]
      rfl
    | some b =>
      have hany : fs.any (fun p => p.1 == "body") = true := by
        rw [any_key_eq_lookup_isSome, hlb]
        rfl
      have hidx : pyIndex (.obj fs) "body" = .ok b := by
        simp [pyIndex, hlb]
      have echeck : bodyAvailCheck (.obj fs) = pyContains "availability" b := by
        unfold bodyAvailCheck
        have e : pyContains "body" (.obj fs)
            = .ok (fs.any (fun p => p.1 == "body")) := rfl
        rw [e, hany, ok_bind, if_pos rfl, hidx]
        rfl
      cases b with
      | null => simp [typeSafe, hlb] at hsafe
      | bool x => simp [typeSafe, hlb] at hsafe
      | num x => simp [typeSafe, hlb] at hsafe
      | str s2 =>
        have hsub : substrOf "availability" s2 = false := by
          simpa [typeSafe, hlb] using hsafe
        left
        refine ⟨by simp [availOf, hlb], ?_⟩
        rw [echeck]
        have e2 : pyContains "availability" (.str s2)
            = .ok (substrOf "availability" s2) := rfl
        rw [e2, hsub]
      | arr xs2 =>
        have hany2 : xs2.any (fun x => pyEq x (.str "availability")) = false := by
          simpa [typeSafe, hlb] using hsafe
        left
        refine ⟨by simp [availOf, hlb], ?_⟩
        rw [echeck]
        have e2 : pyContains "availability" (.arr xs2)
            = .ok (xs2.any (fun x => pyEq x (.str "availability"))) := rfl
        rw [e2, hany2]
      | obj bs =>
        cases hla : bs.lookup "availability" with
        | none =>
          have hany2 : bs.any (fun p => p.1 == "availability") = false := by
            rw [any_key_eq_lookup_isSome, hla]
            rfl
          left
          refine ⟨by simp [availOf, hlb, hla], ?_⟩
          rw [echeck]
          have e2 : pyContains "availability" (.obj bs)
              = .ok (bs.any (fun p => p.1 == "availability")) := rfl
          rw [e2, hany2]
        | some avail =>
          have hany2 : bs.any (fun p => p.1 == "availability") = true := by
            rw [any_key_eq_lookup_isSome, hla]
            rfl
          cases avail with
          | null => simp [typeSafe, hlb, hla] at hsafe
          | bool x => simp [typeSafe, hlb, hla] at hsafe
          | num x => simp [typeSafe, hlb, hla] at hsafe
          | str x => simp [typeSafe, hlb, hla] at hsafe
          | arr x => simp [typeSafe, hlb, hla] at hsafe
          | obj af =>
            have hcond := hsafe
            simp only [typeSafe, hlb, hla] at hcond
            rw [Bool.and_eq_true] at hcond
            right
            refine ⟨bs, af, by simp [availOf, hlb, hla], ?_,
              hidx, by simp [pyIndex, hla], hcond.1, hcond.2⟩
            rw [echeck]
            have e2 : pyContains "availability" (.obj bs)
                = .ok (bs.any (fun p => p.1 == "availability")) := rfl
            rw [e2, hany2]

/-- C5 amended: for payloads whose accessed positions hold containers of
the expected type, parse_reservation_data raises a DataFormatError (a
ValueError; json decode failures included) exactly under the spec
conditions — undecodable payload, body/availability container path not
resolving, or a list field (time_slots, resources, or the detail list of a
resource the loop commits to) absent or not list-shaped — and every such
ValueError message names the offending key or keys.  A payload wrongly
typed at an accessed position (for example a numeric body) raises a
TypeError or AttributeError instead of a DataFormatError. -/
theorem C5_data_format (o : Option Json) (rd : Option String)
    (hsafe : typeSafe o = true) :
    isDataFormat (parse_reservation_data o rd) = dataFormatCondition o ∧
    (∀ msg, parse_reservation_data o rd = .error (.valueError msg) →
      substrOf "time_slots" msg = true ∨ substrOf "resources" msg = true ∨
      substrOf "time_slot_details" msg = true ∨
      (substrOf "body" msg = true ∧ substrOf "availability" msg = true)) := by
  cases o with
  | none =>
    refine ⟨rfl, fun msg h => ?_⟩
    have hno : parse_reservation_data none rd = .error .decodeError := rfl
    rw [hno] at h
    injection h with h1
    injection h1
  | some j =>
    have hstep : parse_reservation_data (some j) rd
        = bodyAvailCheck j >>= (fun cond =>
            if cond then do
              let b ← pyIndex j "body"
              let avail ← pyIndex b "availability"
              let locs ← parseAvailability avail
              Except.ok [(rd.getD "requested_date", locs)]
            else
              .error (.valueError
                "JSON data missing required body or availability keys")) := rfl
    rcases bodyAvailCheck_cases j hsafe with
      ⟨hnone, hck⟩ | ⟨bs, af, havail, hck, hib, hia, hts, hrs⟩
    · have hp : parse_reservation_data (some j) rd
          = .error (.valueError
              "JSON data missing required body or availability keys") := by
        rw [hstep, hck, ok_bind]
        rfl
      constructor
      · rw [hp]
        simp [dataFormatCondition, hnone, isDataFormat]
      · intro msg h
        rw [hp] at h
        injection h with h1
        injection h1 with h2
        right; right; right
        constructor <;> rw [← h2] <;> decide
    · have hp1 : parse_reservation_data (some j) rd
          = parseAvailability (.obj af) >>=
              (fun locs => .ok [(rd.getD "requested_date", locs)]) := by
        rw [hstep, hck, ok_bind, if_pos rfl, hib, ok_bind, hia, ok_bind]
      have e1 : pyGet (.obj af) "time_slots"
          = .ok ((af.lookup "time_slots").getD .null) := rfl
      have e2 : pyGet (.obj af) "resources"
          = .ok ((af.lookup "resources").getD .null) := rfl
      cases hts2 : (af.lookup "time_slots").getD .null with
      | arr tsl =>
        simp only [hts2] at hts
        have htsstr : ∀ t ∈ tsl, ∃ s2, t = Json.str s2 := by
          intro t ht
          have h3 := List.all_eq_true.mp hts t ht
          cases t with
          | str s2 => exact ⟨s2, rfl⟩
          | null => simp at h3
          | bool x => simp at h3
          | num x => simp at h3
          | arr x => simp at h3
          | obj x => simp at h3
        cases hrs2 : (af.lookup "resources").getD .null with
        | arr rsl =>
          simp only [hrs2] at hrs
          have hrsafe : ∀ r ∈ rsl, resourceSafe r = true :=
            fun r hr => List.all_eq_true.mp hrs r hr
          have hpa : parseAvailability (.obj af) = procResources tsl rsl [] := by
            unfold parseAvailability
            rw [e1, hts2, ok_bind]
            dsimp only
            rw [e2, hrs2, ok_bind]
          rcases procResources_cases tsl htsstr rsl [] hrsafe with
            ⟨hanyb, herr⟩ | ⟨hanyb, locs2, hok⟩
          · have hp2 : parse_reservation_data (some j) rd
                = .error (.valueError "Expected time_slot_details to be a list") := by
              rw [hp1, hpa, herr]
              rfl
            constructor
            · rw [hp2]
              simp [dataFormatCondition, havail, hts2, hrs2, hanyb, isDataFormat]
            · intro msg h
              rw [hp2] at h
              injection h with h1
              injection h1 with h2
              right; right; left
              rw [← h2]
              decide
          · have hp2 : parse_reservation_data (some j) rd
                = .ok [(rd.getD "requested_date", locs2)] := by
              rw [hp1, hpa, hok]
              rfl
            constructor
            · rw [hp2]
              simp [dataFormatCondition, havail, hts2, hrs2, hanyb, isDataFormat]
            · intro msg h
              rw [hp2] at h
              simp at h
        | null =>
          have hpa : parseAvailability (.obj af)
              = .error (.valueError "Expected resources to be a list in availability") := by
            unfold parseAvailability
            rw [e1, hts2, ok_bind]
            dsimp only
            rw [e2, hrs2, ok_bind]
          have hp2 : parse_reservation_data (some j) rd
              = .error (.valueError "Expected resources to be a list in availability") := by
            rw [hp1, hpa]
            rfl
          refine ⟨by rw [hp2]; simp [dataFormatCondition, havail, hts2, hrs2, isDataFormat],
            fun msg h => ?_⟩
          rw [hp2] at h
          injection h with h1
          injection h1 with h2
          right; left
          rw [← h2]
          decide
        | bool x =>
          have hpa : parseAvailability (.obj af)
              = .error (.valueError "Expected resources to be a list in availability") := by
            unfold parseAvailability
            rw [e1, hts2, ok_bind]
            dsimp only
            rw [e2, hrs2, ok_bind]
          have hp2 : parse_reservation_data (some j) rd
              = .error (.valueError "Expected resources to be a list in availability") := by
            rw [hp1, hpa]
            rfl
          refine ⟨by rw [hp2]; simp [dataFormatCondition, havail, hts2, hrs2, isDataFormat],
            fun msg h => ?_⟩
          rw [hp2] at h
          injection h with h1
          injection h1 with h2
          right; left
          rw [← h2]
          decide
        | num x =>
          have hpa : parseAvailability (.obj af)
              = .error (.valueError "Expected resources to be a list in availability") := by
            unfold parseAvailability
            rw [e1, hts2, ok_bind]
            dsimp only
            rw [e2, hrs2, ok_bind]
          have hp2 : parse_reservation_data (some j) rd
              = .error (.valueError "Expected resources to be a list in availability") := by
            rw [hp1, hpa]
            rfl
          refine ⟨by rw [hp2]; simp [dataFormatCondition, havail, hts2, hrs2, isDataFormat],
            fun msg h => ?_⟩
          rw [hp2] at h
          injection h with h1
          injection h1 with h2
          right; left
          rw [← h2]
          decide
        | str x =>
          have hpa : parseAvailability (.obj af)
              = .error (.valueError "Expected resources to be a list in availability") := by
            unfold parseAvailability
            rw [e1, hts2, ok_bind]
            dsimp only
            rw [e2, hrs2, ok_bind]
          have hp2 : parse_reservation_data (some j) rd
              = .error (.valueError "Expected resources to be a list in availability") := by
            rw [hp1, hpa]
            rfl
          refine ⟨by rw [hp2]; simp [dataFormatCondition, havail, hts2, hrs2, isDataFormat],
            fun msg h => ?_⟩
          rw [hp2] at h
          injection h with h1
          injection h1 with h2
          right; left
          rw [← h2]
          decide
        | obj x =>
          have hpa : parseAvailability (.obj af)
              = .error (.valueError "Expected resources to be a list in availability") := by
            unfold parseAvailability
            rw [e1, hts2, ok_bind]
            dsimp only
            rw [e2, hrs2, ok_bind]
          have hp2 : parse_reservation_data (some j) rd
              = .error (.valueError "Expected resources to be a list in availability") := by
            rw [hp1, hpa]
            rfl
          refine ⟨by rw [hp2]; simp [dataFormatCondition, havail, hts2, hrs2, isDataFormat],
            fun msg h => ?_⟩
          rw [hp2] at h
          injection h with h1
          injection h1 with h2
          right; left
          rw [← h2]
          decide
      | null =>
        have hpa : parseAvailability (.obj af)
            = .error (.valueError "Expected time_slots to be a list in availability") := by
          unfold parseAvailability
          rw [e1, hts2, ok_bind]
        have hp2 : parse_reservation_data (some j) rd
            = .error (.valueError "Expected time_slots to be a list in availability") := by
          rw [hp1, hpa]
          rfl
        refine ⟨by rw [hp2]; simp [dataFormatCondition, havail, hts2, isDataFormat],
          fun msg h => ?_⟩
        rw [hp2] at h
        injection h with h1
        injection h1 with h2
        left
        rw [← h2]
        decide
      | bool x =>
        have hpa : parseAvailability (.obj af)
            = .error (.valueError "Expected time_slots to be a list in availability") := by
          unfold parseAvailability
          rw [e1, hts2, ok_bind]
        have hp2 : parse_reservation_data (some j) rd
            = .error (.valueError "Expected time_slots to be a list in availability") := by
          rw [hp1, hpa]
          rfl
        refine ⟨by rw [hp2]; simp [dataFormatCondition, havail, hts2, isDataFormat],
          fun msg h => ?_⟩
        rw [hp2] at h
        injection h with h1
        injection h1 with h2
        left
        rw [← h2]
        decide
      | num x =>
        have hpa : parseAvailability (.obj af)
            = .error (.valueError "Expected time_slots to be a list in availability") := by
          unfold parseAvailability
          rw [e1, hts2, ok_bind]
        have hp2 : parse_reservation_data (some j) rd
            = .error (.valueError "Expected time_slots to be a list in availability") := by
          rw [hp1, hpa]
          rfl
        refine ⟨by rw [hp2]; simp [dataFormatCondition, havail, hts2, isDataFormat],
          fun msg h => ?_⟩
        rw [hp2] at h
        injection h with h1
        injection h1 with h2
        left
        rw [← h2]
        decide
      | str x =>
        have hpa : parseAvailability (.obj af)
            = .error (.valueError "Expected time_slots to be a list in availability") := by
          unfold parseAvailability
          rw [e1, hts2, ok_bind]
        have hp2 : parse_reservation_data (some j) rd
            = .error (.valueError "Expected time_slots to be a list in availability") := by
          rw [hp1, hpa]
          rfl
        refine ⟨by rw [hp2]; simp [dataFormatCondition, havail, hts2, isDataFormat],
          fun msg h => ?_⟩
        rw [hp2] at h
        injection h with h1
        injection h1 with h2
        left
        rw [← h2]
        decide
      | obj x =>
        have hpa : parseAvailability (.obj af)
            = .error (.valueError "Expected time_slots to be a list in availability") := by
          unfold parseAvailability
          rw [e1, hts2, ok_bind]
        have hp2 : parse_reservation_data (some j) rd
            = .error (.valueError "Expected time_slots to be a list in availability") := by
          rw [hp1, hpa]
          rfl
        refine ⟨by rw [hp2]; simp [dataFormatCondition, havail, hts2, isDataFormat],
          fun msg h => ?_⟩
        rw [hp2] at h
        injection h with h1
        injection h1 with h2
        left
        rw [← h2]
        decide

/-- Witness for C5 amended at a well-typed payload missing its container
keys. -/
theorem C5_data_format_witness :
    isDataFormat (parse_reservation_data (some (.obj [("x", .num 1)])) none)
        = dataFormatCondition (some (.obj [("x", .num 1)])) ∧
      (∀ msg, parse_reservation_data (some (.obj [("x", .num 1)])) none
          = .error (.valueError msg) →
        substrOf "time_slots" msg = true ∨ substrOf "resources" msg = true ∨
        substrOf "time_slot_details" msg = true ∨
        (substrOf "body" msg = true ∧ substrOf "availability" msg = true)) :=
  C5_data_format (some (.obj [("x", .num 1)])) none (by decide)

/-- The report list of the group loop always starts with an entry for the
head group, whatever branch it takes. -/
theorem groupLoop_cons (read : String → String → CalReadOutcome)
    (desired : List (String × List (String × List (String × String))))
    (l2 c2 : String) (rest : List (String × String)) :
    ∃ rep : GroupReport, (groupLoop read desired ((l2, c2) :: rest)).1
      = (l2, rep) :: (groupLoop read desired rest).1 := by
  cases hl : desired.lookup l2 with
  | none => exact ⟨.skippedNoData, by simp [groupLoop, hl]⟩
  | some dslots =>
    cases hr : read l2 c2 with
    | raised => exact ⟨.skippedReadFail, by simp [groupLoop, hl, hr]⟩
    | ok evs =>
      exact ⟨.synced (diff_events dslots evs).1 (diff_events dslots evs).2,
        by simp [groupLoop, hl, hr]⟩

/-- The date loop finishes exactly when every date fetches and parses, and
otherwise aborts naming a failing date. -/
theorem gatherDates_cases (fetch : String → FetchOutcome) :
    ∀ (dates : List String) (acc : List (String × LocMap)),
      (dates.all (dateOK fetch) = true ∧ ∃ r, gatherDates fetch dates acc = .ok r) ∨
      (dates.all (dateOK fetch) = false ∧ ∃ d, d ∈ dates ∧
        (gatherDates fetch dates acc = .error (.fatalFetch d) ∨
         gatherDates fetch dates acc = .error (.fatalParse d))) := by
  intro dates
  induction dates with
  | nil => intro acc; exact Or.inl ⟨rfl, acc, rfl⟩
  | cons d ds ih =>
    intro acc
    cases hf : fetch d with
    | raised =>
      refine Or.inr ⟨?_, d, List.mem_cons_self d ds, Or.inl ?_⟩
      · simp [List.all_cons, dateOK, hf]
      · simp [gatherDates, hf]
    | ok p =>
      cases hp : parse_reservation_data p (some d) with
      | error e =>
        refine Or.inr ⟨?_, d, List.mem_cons_self d ds, Or.inr ?_⟩
        · simp [List.all_cons, dateOK, hf, hp]
        · simp [gatherDates, hf, hp]
      | ok daily =>
        have hstep : gatherDates fetch (d :: ds) acc
            = gatherDates fetch ds (daily.foldl (fun a q => assocSet a q.1 q.2) acc) := by
          simp [gatherDates, hf, hp]
        have hd : dateOK fetch d = true := by simp [dateOK, hf, hp]
        rcases ih (daily.foldl (fun a q => assocSet a q.1 q.2) acc) with
          ⟨hall, r, hr⟩ | ⟨hall, d2, hd2, hcase⟩
        · exact Or.inl ⟨by simp [List.all_cons, hd, hall], r, by rw [hstep]; exact hr⟩
        · refine Or.inr ⟨by simp [List.all_cons, hd, hall], d2, List.mem_cons_of_mem d hd2, ?_⟩
          rw [hstep]
          exact hcase

/-- Every configured group receives a report, in configuration order,
whatever the calendar reads do. -/
theorem groupLoop_reports (read : String → String → CalReadOutcome)
    (desired : List (String × List (String × List (String × String)))) :
    ∀ groups : List (String × String),
      (groupLoop read desired groups).1.map Prod.fst = groups.map Prod.fst := by
  intro groups
  induction groups with
  | nil => rfl
  | cons g rest ih =>
    obtain ⟨l2, c2⟩ := g
    obtain ⟨rep, hcons⟩ := groupLoop_cons read desired l2 c2 rest
    rw [hcons, List.map_cons, ih]
    rfl

/-- A group whose calendar read raises is reported skipped, for lack of
calendar data or for lack of desired data, never synced. -/
theorem groupLoop_read_raised (read : String → String → CalReadOutcome)
    (desired : List (String × List (String × List (String × String))))
    (loc cal : String) (hread : read loc cal = .raised) :
    ∀ groups : List (String × String), (loc, cal) ∈ groups →
      (loc, GroupReport.skippedReadFail) ∈ (groupLoop read desired groups).1 ∨
      (loc, GroupReport.skippedNoData) ∈ (groupLoop read desired groups).1 := by
  intro groups
  induction groups with
  | nil => intro h; cases h
  | cons g rest ih =>
    obtain ⟨l2, c2⟩ := g
    intro hmem
    rcases List.mem_cons.mp hmem with heq | htail
    · injection heq with h1 h2
      subst h1
      subst h2
      cases hl : desired.lookup loc with
      | none =>
        right
        have hcons : (groupLoop read desired ((loc, cal) :: rest)).1
            = (loc, GroupReport.skippedNoData) :: (groupLoop read desired rest).1 := by
          simp [groupLoop, hl]
        rw [hcons]
        exact List.mem_cons_self _ _
      | some dslots =>
        left
        have hcons : (groupLoop read desired ((loc, cal) :: rest)).1
            = (loc, GroupReport.skippedReadFail) :: (groupLoop read desired rest).1 := by
          simp [groupLoop, hl, hread]
        rw [hcons]
        exact List.mem_cons_self _ _
    · obtain ⟨rep, hcons⟩ := groupLoop_cons read desired l2 c2 rest
      rcases ih htail with h | h
      · left
        rw [hcons]
        exact List.mem_cons_of_mem _ h
      · right
        rw [hcons]
        exact List.mem_cons_of_mem _ h

/-- Every calendar operation the group loop issues is tagged with a
configured location whose desired entry exists. -/
theorem groupLoop_ops_loc (read : String → String → CalReadOutcome)
    (desired : List (String × List (String × List (String × String)))) :
    ∀ groups : List (String × String), ∀ op ∈ (groupLoop read desired groups).2,
      ∃ cal2, (CalOp.loc op, cal2) ∈ groups ∧ desired.lookup (CalOp.loc op) ≠ none := by
  intro groups
  induction groups with
  | nil => intro op hop; cases hop
  | cons g rest ih =>
    obtain ⟨l2, c2⟩ := g
    intro op hop
    cases hl : desired.lookup l2 with
    | none =>
      have hops : (groupLoop read desired ((l2, c2) :: rest)).2
          = (groupLoop read desired rest).2 := by
        simp [groupLoop, hl]
      rw [hops] at hop
      obtain ⟨cal2, hm, hne⟩ := ih op hop
      exact ⟨cal2, List.mem_cons_of_mem _ hm, hne⟩
    | some dslots =>
      cases hr : read l2 c2 with
      | raised =>
        have hops : (groupLoop read desired ((l2, c2) :: rest)).2
            = CalOp.listEvents l2 c2 :: (groupLoop read desired rest).2 := by
          simp [groupLoop, hl, hr]
        rw [hops] at hop
        rcases List.mem_cons.mp hop with heq | htail
        · subst heq
          exact ⟨c2, List.mem_cons_self _ _, by simp [CalOp.loc, hl]⟩
        · obtain ⟨cal2, hm, hne⟩ := ih op htail
          exact ⟨cal2, List.mem_cons_of_mem _ hm, hne⟩
      | ok evs =>
        have hops : (groupLoop read desired ((l2, c2) :: rest)).2
            = CalOp.listEvents l2 c2 ::
              ((diff_events dslots evs).1.map (fun ev => CalOp.create l2 c2 ev) ++
                (diff_events dslots evs).2.map (fun i => CalOp.delete l2 c2 i) ++
                (groupLoop read desired rest).2) := by
          simp [groupLoop, hl, hr]
        rw [hops] at hop
        rcases List.mem_cons.mp hop with heq | htail
        · subst heq
          exact ⟨c2, List.mem_cons_self _ _, by simp [CalOp.loc, hl]⟩
        · rcases List.mem_append.mp htail with hmid | hrest
          · rcases List.mem_append.mp hmid with hcr | hdl
            · obtain ⟨ev, hev, heq⟩ := List.mem_map.mp hcr
              subst heq
              exact ⟨c2, List.mem_cons_self _ _, by simp [CalOp.loc, hl]⟩
            · obtain ⟨i, hi, heq⟩ := List.mem_map.mp hdl
              subst heq
              exact ⟨c2, List.mem_cons_self _ _, by simp [CalOp.loc, hl]⟩
          · obtain ⟨cal2, hm, hne⟩ := ih op hrest
            exact ⟨cal2, List.mem_cons_of_mem _ hm, hne⟩

/-- A group absent from the desired state is reported as skipped for lack
of data. -/
theorem groupLoop_noData (read : String → String → CalReadOutcome)
    (desired : List (String × List (String × List (String × String))))
    (loc : String) (habs : desired.lookup loc = none) :
    ∀ (groups : List (String × String)) (cal : String), (loc, cal) ∈ groups →
      (loc, GroupReport.skippedNoData) ∈ (groupLoop read desired groups).1 := by
  intro groups
  induction groups with
  | nil => intro cal h; cases h
  | cons g rest ih =>
    obtain ⟨l2, c2⟩ := g
    intro cal hmem
    obtain ⟨rep, hcons⟩ := groupLoop_cons read desired l2 c2 rest
    rcases List.mem_cons.mp hmem with heq | htail
    · injection heq with h1 h2
      subst h1
      have hcons2 : (groupLoop read desired ((loc, c2) :: rest)).1
          = (loc, GroupReport.skippedNoData) :: (groupLoop read desired rest).1 := by
        simp [groupLoop, habs]
      rw [hcons2]
      exact List.mem_cons_self _ _
    · rw [hcons]
      exact List.mem_cons_of_mem _ (ih cal htail)

/-- Rendering the desired state keeps its key set, so a location missing
from the consolidated output is missing from the rendered state too. -/
theorem renderDesired_lookup_none (loc : String) :
    ∀ c : Consolidated, c.lookup loc = none → (renderDesired c).lookup loc = none := by
  intro c
  induction c with
  | nil => intro h; rfl
  | cons p rest ih =>
    obtain ⟨k, v⟩ := p
    intro h
    cases hb : loc == k with
    | true => simp [List.lookup, hb] at h
    | false =>
      simp only [List.lookup, hb] at h
      have hstep : (renderDesired ((k, v) :: rest)).lookup loc
          = (renderDesired rest).lookup loc := by
        simp [renderDesired, List.lookup, hb]
      rw [hstep]
      exact ih h

/-- C7: a date whose availability fetch raises or whose payload fails to
parse aborts the whole run before any calendar operation is issued
(fail-fast with a fatal result), while a raised existing-events read is
non-fatal: the run completes, every configured group still receives a
report in order, and the failed group is merely skipped. -/
theorem C7_failure_policy (fetch : String → FetchOutcome)
    (read : String → String → CalReadOutcome)
    (dates : List String) (groups : List (String × String)) :
    (dates.all (dateOK fetch) = false →
      (mainModel fetch read dates groups).2 = [] ∧
      ∃ d, d ∈ dates ∧
        ((mainModel fetch read dates groups).1 = .fatalFetch d ∨
         (mainModel fetch read dates groups).1 = .fatalParse d)) ∧
    (dates.all (dateOK fetch) = true →
      ∃ reports, (mainModel fetch read dates groups).1 = .completed reports ∧
        reports.map Prod.fst = groups.map Prod.fst ∧
        ∀ loc cal, (loc, cal) ∈ groups → read loc cal = .raised →
          (loc, GroupReport.skippedReadFail) ∈ reports ∨
          (loc, GroupReport.skippedNoData) ∈ reports) := by
  rcases gatherDates_cases fetch dates [] with ⟨hall, r, hr⟩ | ⟨hall, d, hd, hcase⟩
  · constructor
    · intro hfalse
      rw [hall] at hfalse
      exact absurd hfalse (by decide)
    · intro _
      have hmain : mainModel fetch read dates groups
          = (.completed (groupLoop read (renderDesired (consolidate_booked_slots r)) groups).1,
             (groupLoop read (renderDesired (consolidate_booked_slots r)) groups).2) := by
        simp [mainModel, hr]
      refine ⟨(groupLoop read (renderDesired (consolidate_booked_slots r)) groups).1,
        by rw [hmain], groupLoop_reports read _ groups, ?_⟩
      intro loc cal hmem hraised
      exact groupLoop_read_raised read _ loc cal hraised groups hmem
  · constructor
    · intro _
      rcases hcase with h | h
      · exact ⟨by simp [mainModel, h], d, hd, Or.inl (by simp [mainModel, h])⟩
      · exact ⟨by simp [mainModel, h], d, hd, Or.inr (by simp [mainModel, h])⟩
    · intro htrue
      rw [hall] at htrue
      exact absurd htrue (by decide)

/-- Witness for C7: a raising fetch yields no calendar operations, while a
raising calendar read still lets both configured groups be reported, the
affected group skipped. -/
theorem C7_failure_policy_witness :
    (mainModel (fun _ => FetchOutcome.raised) (fun _ _ => CalReadOutcome.ok [])
        ["2025-04-20"] LOCATION_TO_CALENDAR).2 = [] ∧
    ∃ reports,
      (mainModel (fun _ => FetchOutcome.ok (some (mkPayload [] [])))
          (fun _ _ => CalReadOutcome.raised) ["2025-04-20"] LOCATION_TO_CALENDAR).1
        = .completed reports ∧
      reports.map Prod.fst = ["Mervin", "Bay"] ∧
      (("Mervin", GroupReport.skippedReadFail) ∈ reports ∨
       ("Mervin", GroupReport.skippedNoData) ∈ reports) := by
  constructor
  · exact ((C7_failure_policy (fun _ => FetchOutcome.raised) (fun _ _ => CalReadOutcome.ok [])
      ["2025-04-20"] LOCATION_TO_CALENDAR).1 (by rfl)).1
  · obtain ⟨reports, h1, h2, h3⟩ :=
      (C7_failure_policy (fun _ => FetchOutcome.ok (some (mkPayload [] [])))
        (fun _ _ => CalReadOutcome.raised) ["2025-04-20"] LOCATION_TO_CALENDAR).2 (by rfl)
    refine ⟨reports, h1, by rw [h2]; rfl, ?_⟩
    exact h3 "Mervin"
      "c1b24574cbbcfe3d62b323de33ebc50956edf9212737a88f9423c661c5e37204@group.calendar.google.com"
      (List.mem_cons_self _ _) rfl

/-- C8: a configured group absent from the consolidated desired state is
skipped before any calendar access: no operation of the run, not even the
existing-events read and in particular no delete, carries that location,
and the group is reported as skipped for lack of data. -/
theorem C8_untouched_group (fetch : String → FetchOutcome)
    (read : String → String → CalReadOutcome)
    (dates : List String) (groups : List (String × String)) (loc : String)
    (all : List (String × LocMap))
    (hall : gatherDates fetch dates [] = .ok all)
    (habs : (consolidate_booked_slots all).lookup loc = none) :
    (∀ op ∈ (mainModel fetch read dates groups).2, CalOp.loc op ≠ loc) ∧
    ∃ reports, (mainModel fetch read dates groups).1 = .completed reports ∧
      ∀ cal, (loc, cal) ∈ groups → (loc, GroupReport.skippedNoData) ∈ reports := by
  have hmain : mainModel fetch read dates groups
      = (.completed (groupLoop read (renderDesired (consolidate_booked_slots all)) groups).1,
         (groupLoop read (renderDesired (consolidate_booked_slots all)) groups).2) := by
    simp [mainModel, hall]
  have habs2 : (renderDesired (consolidate_booked_slots all)).lookup loc = none :=
    renderDesired_lookup_none loc _ habs
  constructor
  · intro op hop
    rw [hmain] at hop
    obtain ⟨cal2, hm, hne⟩ := groupLoop_ops_loc read _ groups op hop
    intro hloc
    rw [hloc] at hne
    exact hne habs2
  · refine ⟨(groupLoop read (renderDesired (consolidate_booked_slots all)) groups).1,
      by rw [hmain], ?_⟩
    intro cal hmem
    exact groupLoop_noData read _ loc habs2 groups cal hmem

/-- Witness for C8: with a payload booking nothing, the Mervin group sees
no calendar operation and is reported as skipped. -/
theorem C8_untouched_group_witness :
    (∀ op ∈ (mainModel (fun _ => FetchOutcome.ok (some (mkPayload [] [])))
        (fun _ _ => CalReadOutcome.ok []) ["2025-04-20"] LOCATION_TO_CALENDAR).2,
      CalOp.loc op ≠ "Mervin") ∧
    ∃ reports,
      (mainModel (fun _ => FetchOutcome.ok (some (mkPayload [] [])))
        (fun _ _ => CalReadOutcome.ok []) ["2025-04-20"] LOCATION_TO_CALENDAR).1
        = .completed reports ∧
      ("Mervin", GroupReport.skippedNoData) ∈ reports := by
  obtain ⟨h1, reports, h2, h3⟩ :=
    C8_untouched_group (fun _ => FetchOutcome.ok (some (mkPayload [] [])))
      (fun _ _ => CalReadOutcome.ok []) ["2025-04-20"] LOCATION_TO_CALENDAR "Mervin"
      [("2025-04-20", [])] rfl rfl
  exact ⟨h1, reports, h2,
    h3 "c1b24574cbbcfe3d62b323de33ebc50956edf9212737a88f9423c661c5e37204@group.calendar.google.com"
      (List.mem_cons_self _ _)⟩

end HaywardTennis
